import Mathlib

/-!
Verification model of the mongoproxy wire-protocol codec (ReadRequest /
WriteRequest and their helpers) and of the per-connection relay loop
(Proxy.handleConnection).

Modelling conventions:
* Byte streams are lists of naturals; a wire byte is a value below 256.
* Go int32 / int64 values are Lean integers; writers reduce modulo 2 ^ 32
  (resp. 2 ^ 64) and readers reinterpret the little-endian value in two's
  complement, so overflow behaviour is explicit.
* BSON documents (the external mgo/bson library) are treated as opaque
  payloads: a marshalled document is a 4-byte little-endian total length
  (payload length + 5), the payload bytes, and a terminating zero byte.
  The source interacts with documents only through this framing (readDoc
  peeks the leading size, pulls that many bytes, and hands them to
  bson.Unmarshal; writeBson emits bson.Marshal's bytes verbatim).
  bson.Unmarshal is modelled as validating the framing, bson.Marshal as its
  inverse; the element-count test len(data) > 0 in writeBson corresponds to
  a nonempty payload (an empty document has no elements and no payload).
* make([]byte, n) with negative n panics at runtime in Go; the distinguished
  result .panicked records this, as does calling Close on a nil connection
  interface in handleConnection.
* The two array-reading loops of ReadRequest are written with an explicit
  fuel argument initialised strictly above the stream length (which shrinks
  on every iteration); the distinguished result .fuelOut is proved
  unreachable, so the model is total exactly where the Go code terminates.
-/

namespace MongoProxy

/-- Little-endian byte list (length w) of a natural number, low byte first. -/
def natLeBytes : Nat → Nat → List Nat
  | 0, _ => []
  | w + 1, n => n % 256 :: natLeBytes w (n / 256)

/-- Natural number denoted by a little-endian byte list. -/
def natFromLe : List Nat → Nat
  | [] => 0
  | b :: bs => b + 256 * natFromLe bs

/-- Two's-complement reinterpretation of a w-byte little-endian value. -/
def signedOf (w : Nat) (n : Nat) : Int :=
  if (n : Int) < 2 ^ (8 * w - 1) then (n : Int) else (n : Int) - 2 ^ (8 * w)

/-- Bytes written by binary.Write for an int32 (little endian). -/
def w32 (v : Int) : List Nat := natLeBytes 4 (v % 2 ^ 32).toNat

/-- Bytes written by binary.Write for an int64 (little endian). -/
def w64 (v : Int) : List Nat := natLeBytes 8 (v % 2 ^ 64).toNat

/-- Signed int32 read from the first 4 bytes of a stream (binary.Read). -/
def rd32 (bs : List Nat) : Int := signedOf 4 (natFromLe (bs.take 4))

/-- Signed int64 read from the first 8 bytes of a stream (binary.Read). -/
def rd64 (bs : List Nat) : Int := signedOf 8 (natFromLe (bs.take 8))

/-- MsgHeader: the fixed 16-byte frame header (request.go). -/
structure MsgHeader where
  messageLength : Int
  requestID : Int
  responseTo : Int
  opcode : Int
deriving DecidableEq

/-- Field value of a decoded message; constructors mirror the Go field types
dispatched on by ReadRequest / WriteRequest via reflection: int32, int64,
string, bson.D, a bson.D slice, and an int64 slice. -/
inductive FVal where
  | i32V (v : Int)
  | i64V (v : Int)
  | strV (s : List Nat)
  | docV (d : List Nat)
  | docArrV (ds : List (List Nat))
  | i64ArrV (vs : List Int)
deriving DecidableEq

/-- Field kind in a message variant's wire schema. -/
inductive FieldKind where
  | i32F
  | i64F
  | strF
  | docF
  | docArrF
  | i64ArrF
deriving DecidableEq

/-- Body schemas of the eight registered message variants, keyed by opcode,
in Go struct-field order.  The embedded *MsgHeader field of each struct hits
the reflection switch's default (skip) branch in ReadRequest, consuming zero
bytes, so it is not listed; newReq returns nil for any other opcode. -/
def schema (op : Int) : Option (List FieldKind) :=
  if op = 1 then some [.i32F, .i64F, .i32F, .i32F, .docArrF]        -- Reply
  else if op = 1000 then some [.strF]                               -- Msg
  else if op = 2001 then some [.i32F, .strF, .i32F, .docF, .docF]   -- Update
  else if op = 2002 then some [.i32F, .strF, .docArrF]              -- Insert
  else if op = 2004 then some [.i32F, .strF, .i32F, .i32F, .docF, .docF] -- Query
  else if op = 2005 then some [.i32F, .strF, .i32F, .i64F]          -- GetMore
  else if op = 2006 then some [.i32F, .strF, .i32F, .docF]          -- Delete
  else if op = 2007 then some [.i32F, .i32F, .i64ArrF]              -- KillCursors
  else none

/-- Go zero value of each field kind (fields left unset when the decoder
short-circuits at the declared total length). -/
def zeroVal : FieldKind → FVal
  | .i32F => .i32V 0
  | .i64F => .i64V 0
  | .strF => .strV []
  | .docF => .docV []
  | .docArrF => .docArrV []
  | .i64ArrF => .i64ArrV []

/-- A decoded in-memory message: header plus body field values. -/
structure Message where
  header : MsgHeader
  body : List FVal
deriving DecidableEq

/-- Error values surfaced by the decoder: io.EOF, io.ErrUnexpectedEOF,
ErrorWrongLen, ErrorOpcodeUnknown, and a bson.Unmarshal failure. -/
inductive GoErr where
  | eof
  | unexpectedEOF
  | wrongLen
  | opcodeUnknown
  | bsonCorrupt
deriving DecidableEq

/-- Result of a primitive read: a value together with the running byte count
it contributes (or, for the array loops, the final byte counter) and the rest
of the stream; or an error; or a Go runtime panic; or fuel exhaustion of the
model (proved unreachable). -/
inductive RRes (α : Type) where
  | ok (v : α) (n : Nat) (rest : List Nat)
  | err (e : GoErr) (rest : List Nat)
  | panicked
  | fuelOut
deriving DecidableEq

/-- Model of readInt32s(r, 1): 4 little-endian bytes.  binary.Read returns
io.EOF when no byte is available and io.ErrUnexpectedEOF on a partial read. -/
def readI32 (s : List Nat) : RRes Int :=
  if 4 ≤ s.length then .ok (rd32 s) 4 (s.drop 4)
  else if s.length = 0 then .err .eof s
  else .err .unexpectedEOF s

/-- Model of readInt64s(r, 1): 8 little-endian bytes. -/
def readI64 (s : List Nat) : RRes Int :=
  if 8 ≤ s.length then .ok (rd64 s) 8 (s.drop 8)
  else if s.length = 0 then .err .eof s
  else .err .unexpectedEOF s

/-- Model of bufio ReadString(0): bytes up to and including the first zero
byte; the value excludes the terminator, the count includes it.  At end of
input without a terminator bufio returns io.EOF. -/
def readCString : List Nat → RRes (List Nat)
  | [] => .err .eof []
  | b :: t =>
    if b = 0 then .ok [] 1 t
    else
      match readCString t with
      | .ok s n r => .ok (b :: s) (n + 1) r
      | .err e r => .err e r
      | .panicked => .panicked
      | .fuelOut => .fuelOut

/-- Model of bson.Unmarshal on the n bytes readDoc pulled: the framing must
declare exactly the buffer's length, be at least 5 bytes, and end in a zero
byte; the document value is the payload between the size prefix and the
terminator. -/
def unmarshalBlob (b : List Nat) : Option (List Nat) :=
  if 5 ≤ b.length ∧ rd32 b = (b.length : Int) ∧ b.getLast? = some 0
  then some ((b.drop 4).dropLast)
  else none

/-- Model of bson.Marshal: size prefix (payload + 5), payload, terminator. -/
def marshalDoc (d : List Nat) : List Nat :=
  natLeBytes 4 (d.length + 5) ++ d ++ [0]

/-- Model of readDoc: peek 4 bytes as a signed size n, allocate and fill an
n-byte buffer, unmarshal it.  Peek fails with io.EOF below 4 available bytes;
make([]byte, n) panics for negative n; io.ReadFull fails with
io.ErrUnexpectedEOF when fewer than n bytes remain (at least the 4 peeked
bytes were available). -/
def readDoc (s : List Nat) : RRes (List Nat) :=
  if s.length < 4 then .err .eof s
  else
    let n : Int := rd32 s
    if n < 0 then .panicked
    else if (s.length : Int) < n then .err .unexpectedEOF s
    else
      match unmarshalBlob (s.take n.toNat) with
      | none => .err .bsonCorrupt (s.drop n.toNat)
      | some d => .ok d n.toNat (s.drop n.toNat)

/-- Model of the []bson.D loop of ReadRequest: repeatedly readDoc, adding
each document's declared size to the byte counter, until the counter equals
the declared total message length.  There is no overshoot check inside the
loop.  On success the returned count is the final byte counter.  Fuel
strictly exceeds the stream length at every call (each iteration consumes at
least 5 bytes), so .fuelOut is unreachable. -/
def docArrGo : Nat → Int → Nat → List (List Nat) → List Nat → RRes (List (List Nat))
  | 0, _, _, _, _ => .fuelOut
  | fuel + 1, ml, br, acc, s =>
    match readDoc s with
    | .ok d n r =>
      if ((br + n : Nat) : Int) = ml then .ok (acc ++ [d]) (br + n) r
      else docArrGo fuel ml (br + n) (acc ++ [d]) r
    | .err e r => .err e r
    | .panicked => .panicked
    | .fuelOut => .fuelOut

/-- Model of the []int64 loop of ReadRequest: repeatedly read one int64 and
add 8 to the byte counter until it equals the declared total length. -/
def i64ArrGo : Nat → Int → Nat → List Int → List Nat → RRes (List Int)
  | 0, _, _, _, _ => .fuelOut
  | fuel + 1, ml, br, acc, s =>
    match readI64 s with
    | .ok v _ r =>
      if ((br + 8 : Nat) : Int) = ml then .ok (acc ++ [v]) (br + 8) r
      else i64ArrGo fuel ml (br + 8) (acc ++ [v]) r
    | .err e r => .err e r
    | .panicked => .panicked
    | .fuelOut => .fuelOut

/-- Prepend a decoded field value onto the result of decoding the remaining
fields. -/
def prependOk (v : FVal) : RRes (List FVal) → RRes (List FVal)
  | .ok vs n r => .ok (v :: vs) n r
  | .err e r => .err e r
  | .panicked => .panicked
  | .fuelOut => .fuelOut

/-- Model of ReadRequest's field loop: before each field, stop with zero
values for the remaining fields if the byte counter equals the declared
total length, fail with ErrorWrongLen if it exceeds it, and otherwise decode
the field and add its size.  After the last schema field the loop ends with
no further check.  On success the returned count is the final byte counter. -/
def decodeFields (ml : Int) : List FieldKind → Nat → List Nat → RRes (List FVal)
  | [], br, s => .ok [] br s
  | k :: ks, br, s =>
    if (br : Int) = ml then .ok ((k :: ks).map zeroVal) br s
    else if ml < (br : Int) then .err .wrongLen s
    else
      match k with
      | .i32F =>
        match readI32 s with
        | .ok v n r => prependOk (.i32V v) (decodeFields ml ks (br + n) r)
        | .err e r => .err e r
        | .panicked => .panicked
        | .fuelOut => .fuelOut
      | .i64F =>
        match readI64 s with
        | .ok v n r => prependOk (.i64V v) (decodeFields ml ks (br + n) r)
        | .err e r => .err e r
        | .panicked => .panicked
        | .fuelOut => .fuelOut
      | .strF =>
        match readCString s with
        | .ok v n r => prependOk (.strV v) (decodeFields ml ks (br + n) r)
        | .err e r => .err e r
        | .panicked => .panicked
        | .fuelOut => .fuelOut
      | .docF =>
        match readDoc s with
        | .ok d n r => prependOk (.docV d) (decodeFields ml ks (br + n) r)
        | .err e r => .err e r
        | .panicked => .panicked
        | .fuelOut => .fuelOut
      | .docArrF =>
        match docArrGo (s.length + 1) ml br [] s with
        | .ok ds brF r => prependOk (.docArrV ds) (decodeFields ml ks brF r)
        | .err e r => .err e r
        | .panicked => .panicked
        | .fuelOut => .fuelOut
      | .i64ArrF =>
        match i64ArrGo (s.length + 1) ml br [] s with
        | .ok vs brF r => prependOk (.i64ArrV vs) (decodeFields ml ks brF r)
        | .err e r => .err e r
        | .panicked => .panicked
        | .fuelOut => .fuelOut

/-- The 16-byte header layout: four little-endian int32 fields. -/
def parseHeader (s : List Nat) : MsgHeader :=
  { messageLength := rd32 s
    requestID := rd32 (s.drop 4)
    responseTo := rd32 (s.drop 8)
    opcode := rd32 (s.drop 12) }

/-- Result of ReadRequest. -/
inductive DecRes where
  | ok (m : Message) (rest : List Nat)
  | err (e : GoErr) (rest : List Nat)
  | panicked
  | fuelOut
deriving DecidableEq

/-- Model of ReadRequest: read the 16-byte header (io.EOF on an empty stream,
io.ErrUnexpectedEOF on a partial header), dispatch on the opcode (nil from
newReq becomes ErrorOpcodeUnknown before any body byte is consumed), then
walk the variant's field schema starting the byte counter at 16. -/
def ReadRequest (s : List Nat) : DecRes :=
  if s.length = 0 then .err .eof s
  else if s.length < 16 then .err .unexpectedEOF s
  else
    match schema (parseHeader s).opcode with
    | none => .err .opcodeUnknown (s.drop 16)
    | some ks =>
      match decodeFields (parseHeader s).messageLength ks 16 (s.drop 16) with
      | .ok body _ r => .ok ⟨parseHeader s, body⟩ r
      | .err e r => .err e r
      | .panicked => .panicked
      | .fuelOut => .fuelOut

/-- Bytes produced for one field by WriteRequest's reflection switch.
writeBson skips a document whose element list is empty (modelled: empty
payload), both for a lone bson.D field and for each element of a []bson.D
field; strings get a zero terminator; integers are fixed width. -/
def encodeFVal : FVal → List Nat
  | .i32V v => w32 v
  | .i64V v => w64 v
  | .strV s => s ++ [0]
  | .docV d => if 0 < d.length then marshalDoc d else []
  | .docArrV ds => ds.flatMap (fun d => if 0 < d.length then marshalDoc d else [])
  | .i64ArrV vs => vs.flatMap w64

/-- Bytes of the 16-byte header written by binary.Write. -/
def headerBytes (h : MsgHeader) : List Nat :=
  w32 h.messageLength ++ w32 h.requestID ++ w32 h.responseTo ++ w32 h.opcode

/-- Model of WriteRequest: the header followed by each body field in struct
order.  The header is written exactly as stored; no length is recomputed. -/
def WriteRequest (m : Message) : List Nat :=
  headerBytes m.header ++ m.body.flatMap encodeFVal

/-- Encoded size of a message body. -/
def bodySize (m : Message) : Nat := (m.body.flatMap encodeFVal).length

/-- Model of Opcode.String (tags used for log records). -/
def opString (op : Int) : String :=
  if op = 2006 then "OP_DELETE"
  else if op = 2005 then "OP_GET_MORE"
  else if op = 2002 then "OP_INSERT"
  else if op = 2007 then "OP_KILL_CURSORS"
  else if op = 1000 then "OP_MSG"
  else if op = 2004 then "OP_QUERY"
  else if op = 1 then "OP_REPLY"
  else if op = 2001 then "OP_UPDATE"
  else "UNKNOWN"

/-- Observable events of one connection handler, in order: log records
(an ERROR-tagged record or a frame record with its opcode tag), bytes
forwarded to the backend or to the client, socket closes, and an unrecovered
runtime panic, which kills the whole process. -/
inductive Ev where
  | logError
  | logFrame (tag : String)
  | sendBackend (bs : List Nat)
  | sendClient (bs : List Nat)
  | closeClient
  | closeBackend
  | procPanic
deriving DecidableEq

/-- Model of handleConnection's relay loop.  Each iteration decodes one
client request; io.EOF breaks silently, any other error logs an ERROR record
and breaks, and the deferred Close calls run on exit (conn.Close then
c.Close, in LIFO order).  Otherwise the request is logged with its opcode
tag and forwarded, one reply is decoded from the backend under the same
rules, logged only when reply logging is on, and forwarded to the client
with the write's error value discarded (cw models those per-iteration write
outcomes; the code never consults them).  Fuel only bounds the model's
recursion; each iteration consumes at least 16 client bytes. -/
def relayLoop (lr : Bool) : Nat → List Nat → List Nat → List Bool → List Ev
  | 0, _, _, _ => []
  | fuel + 1, cIn, bIn, cw =>
    match ReadRequest cIn with
    | .panicked => [.closeClient, .closeBackend, .procPanic]
    | .fuelOut => []
    | .err e _ => (if e = .eof then [] else [.logError]) ++ [.closeClient, .closeBackend]
    | .ok m cRest =>
      .logFrame (opString m.header.opcode) ::
      .sendBackend (WriteRequest m) ::
      match ReadRequest bIn with
      | .panicked => [.closeClient, .closeBackend, .procPanic]
      | .fuelOut => []
      | .err e _ => (if e = .eof then [] else [.logError]) ++ [.closeClient, .closeBackend]
      | .ok rm bRest =>
        (if lr then [Ev.logFrame (opString rm.header.opcode)] else []) ++
        Ev.sendClient (WriteRequest rm) :: relayLoop lr fuel cRest bRest cw.tail

/-- Model of handleConnection.  The backend dial happens first and the two
Close calls are deferred before the dial error is checked.  On dial failure
c is a nil net.Conn interface, and the very first defer statement already
panics: a defer evaluates its function value at the defer statement, and
evaluating the Close method of a nil interface is a run-time panic.  So
nothing else runs — the client-close defer is never registered, the error
is never logged, the client socket is never read or deliberately closed —
and the unrecovered panic brings down the whole process.  On a successful
dial both defers are registered (client close runs first, LIFO) and the
relay loop follows. -/
def handleConnection (dialOk : Bool) (lr : Bool) (cIn bIn : List Nat) (cw : List Bool) :
    List Ev :=
  if dialOk then relayLoop lr (cIn.length + 1) cIn bIn cw
  else [.procPanic]

end MongoProxy

namespace MongoProxy


lemma natLeBytes_length (w n : Nat) : (natLeBytes w n).length = w := by
  induction w generalizing n with
  | zero => rfl
  | succ w ih => simp [natLeBytes, ih]

lemma natFromLe_natLeBytes (w n : Nat) : natFromLe (natLeBytes w n) = n % 2 ^ (8 * w) := by
  induction w generalizing n with
  | zero => simp [natLeBytes, natFromLe, Nat.mod_one]
  | succ w ih =>
    have h : (2 : Nat) ^ (8 * (w + 1)) = 256 * 2 ^ (8 * w) := by ring
    simp only [natLeBytes, natFromLe, ih, h, Nat.mod_mul]

lemma natFromLe_natLeBytes4 (n : Nat) : natFromLe (natLeBytes 4 n) = n % 4294967296 := by
  have h := natFromLe_natLeBytes 4 n
  norm_num at h
  exact h

lemma natFromLe_natLeBytes8 (n : Nat) :
    natFromLe (natLeBytes 8 n) = n % 18446744073709551616 := by
  have h := natFromLe_natLeBytes 8 n
  norm_num at h
  exact h

lemma w32_length (v : Int) : (w32 v).length = 4 := by
  simp [w32, natLeBytes_length]

lemma w64_length (v : Int) : (w64 v).length = 8 := by
  simp [w64, natLeBytes_length]

lemma take_of_append {α} (l t : List α) (n : Nat) (h : l.length = n) :
    (l ++ t).take n = l := by
  subst h; exact List.take_left _ _

lemma drop_of_append {α} (l t : List α) (n : Nat) (h : l.length = n) :
    (l ++ t).drop n = t := by
  subst h; exact List.drop_left _ _

lemma rd32_w32 (v : Int) (h1 : -(2 ^ 31) ≤ v) (h2 : v < 2 ^ 31) (t : List Nat) :
    rd32 (w32 v ++ t) = v := by
  have hM : ((2 : Int) ^ 32) = 4294967296 := by norm_num
  norm_num at h1 h2
  have h0 := Int.emod_nonneg v (show (4294967296 : Int) ≠ 0 by norm_num)
  have hl := Int.emod_lt_of_pos v (show (0 : Int) < 4294967296 by norm_num)
  have hx : (((v % 4294967296).toNat : Nat) : Int) = v % 4294967296 := by omega
  have hxlt : (v % 4294967296).toNat < 4294967296 := by omega
  rw [rd32, take_of_append _ _ _ (w32_length v)]
  simp only [w32, hM, natFromLe_natLeBytes4, Nat.mod_eq_of_lt hxlt, signedOf]
  norm_num
  split_ifs <;> omega

lemma rd64_w64 (v : Int) (h1 : -(2 ^ 63) ≤ v) (h2 : v < 2 ^ 63) (t : List Nat) :
    rd64 (w64 v ++ t) = v := by
  have hM : ((2 : Int) ^ 64) = 18446744073709551616 := by norm_num
  norm_num at h1 h2
  have h0 := Int.emod_nonneg v (show (18446744073709551616 : Int) ≠ 0 by norm_num)
  have hl := Int.emod_lt_of_pos v (show (0 : Int) < 18446744073709551616 by norm_num)
  have hx : (((v % 18446744073709551616).toNat : Nat) : Int)
      = v % 18446744073709551616 := by omega
  have hxlt : (v % 18446744073709551616).toNat < 18446744073709551616 := by omega
  rw [rd64, take_of_append _ _ _ (w64_length v)]
  simp only [w64, hM, natFromLe_natLeBytes8, Nat.mod_eq_of_lt hxlt, signedOf]
  norm_num
  split_ifs <;> omega

lemma readI32_w32 (v : Int) (h1 : -(2 ^ 31) ≤ v) (h2 : v < 2 ^ 31) (t : List Nat) :
    readI32 (w32 v ++ t) = .ok v 4 t := by
  have h4 : (w32 v ++ t).length = 4 + t.length := by simp [w32_length]
  rw [readI32, if_pos (by omega), rd32_w32 v h1 h2 t, drop_of_append _ _ _ (w32_length v)]

lemma readI64_w64 (v : Int) (h1 : -(2 ^ 63) ≤ v) (h2 : v < 2 ^ 63) (t : List Nat) :
    readI64 (w64 v ++ t) = .ok v 8 t := by
  have h8 : (w64 v ++ t).length = 8 + t.length := by simp [w64_length]
  rw [readI64, if_pos (by omega), rd64_w64 v h1 h2 t, drop_of_append _ _ _ (w64_length v)]

lemma readCString_enc (s t : List Nat) (h : 0 ∉ s) :
    readCString (s ++ 0 :: t) = .ok s (s.length + 1) t := by
  induction s with
  | nil => simp [readCString]
  | cons b bs ih =>
    have hb : ¬ b = 0 := fun hb => h (by simp [hb])
    have hbs : 0 ∉ bs := fun hm => h (List.mem_cons_of_mem _ hm)
    have he : bs.append (0 :: t) = bs ++ 0 :: t := rfl
    simp only [List.cons_append, readCString, if_neg hb, he, ih hbs, List.length_cons]

lemma marshalDoc_length (d : List Nat) : (marshalDoc d).length = d.length + 5 := by
  simp [marshalDoc, natLeBytes_length]
  omega

lemma rd32_size (x : Nat) (hx : x < 2 ^ 31) (t : List Nat) :
    rd32 (natLeBytes 4 x ++ t) = (x : Int) := by
  norm_num at hx
  rw [rd32, take_of_append _ _ _ (natLeBytes_length 4 x), natFromLe_natLeBytes4,
    Nat.mod_eq_of_lt (by omega)]
  simp only [signedOf]
  norm_num
  omega

lemma marshalDoc_decomp (d : List Nat) :
    marshalDoc d = natLeBytes 4 (d.length + 5) ++ (d ++ [0]) := by
  simp [marshalDoc]

lemma unmarshalBlob_marshalDoc (d : List Nat) (hd : d.length + 5 < 2 ^ 31) :
    unmarshalBlob (marshalDoc d) = some d := by
  have hrdm : rd32 (marshalDoc d) = ((d.length + 5 : Nat) : Int) := by
    rw [marshalDoc_decomp]; exact rd32_size _ hd _
  rw [unmarshalBlob, if_pos]
  · have h1 : ((marshalDoc d).drop 4) = d ++ [0] := by
      rw [marshalDoc_decomp]
      exact drop_of_append _ _ _ (natLeBytes_length 4 _)
    rw [h1]
    simp
  · refine ⟨by rw [marshalDoc_length]; omega, by rw [hrdm, marshalDoc_length], ?_⟩
    rw [marshalDoc_decomp, ← List.append_assoc]
    simp

lemma readDoc_marshal (d t : List Nat) (hd : d.length + 5 < 2 ^ 31) :
    readDoc (marshalDoc d ++ t) = .ok d (d.length + 5) t := by
  have hlen := marshalDoc_length d
  have hrd : rd32 (marshalDoc d ++ t) = ((d.length + 5 : Nat) : Int) := by
    rw [marshalDoc_decomp, List.append_assoc]; exact rd32_size _ hd _
  have hslen : (marshalDoc d ++ t).length = d.length + 5 + t.length := by
    simp [hlen]
  have htake : (marshalDoc d ++ t).take (d.length + 5) = marshalDoc d :=
    take_of_append _ _ _ hlen
  have hdrop : (marshalDoc d ++ t).drop (d.length + 5) = t :=
    drop_of_append _ _ _ hlen
  rw [readDoc]
  simp only [hrd, hslen, Int.toNat_natCast, htake, hdrop,
    unmarshalBlob_marshalDoc d hd]
  rw [if_neg (by omega), if_neg (by omega), if_neg (by omega)]

lemma unmarshalBlob_some (b d : List Nat) (h : unmarshalBlob b = some d) :
    5 ≤ b.length := by
  rw [unmarshalBlob] at h
  split_ifs at h with hc
  exact hc.1

lemma readDoc_ok (s d : List Nat) (n : Nat) (r : List Nat) (h : readDoc s = .ok d n r) :
    5 ≤ n ∧ n ≤ s.length ∧ r = s.drop n := by
  simp only [readDoc] at h
  split_ifs at h with h1 h2 h3
  rcases hu : unmarshalBlob (s.take (rd32 s).toNat) with _ | d2 <;> rw [hu] at h
  · exact RRes.noConfusion h
  · simp only [RRes.ok.injEq] at h
    obtain ⟨hd2, hn, hr⟩ := h
    have h5 := unmarshalBlob_some _ _ hu
    have htl : (s.take (rd32 s).toNat).length = min (rd32 s).toNat s.length := by simp
    rw [htl] at h5
    refine ⟨by omega, by omega, by rw [← hn, ← hr]⟩

lemma flatMap_nonempty_marshal (rest : List (List Nat)) (h : rest ≠ []) :
    0 < (rest.flatMap marshalDoc).length := by
  match rest with
  | [] => exact absurd rfl h
  | d :: rest2 =>
    simp only [List.flatMap_cons, List.length_append, marshalDoc_length]
    omega

lemma docArrGo_succ (fuel : Nat) (ml : Int) (br : Nat) (acc : List (List Nat)) (s : List Nat) :
    docArrGo (fuel + 1) ml br acc s = (match readDoc s with
      | .ok d n r =>
        if ((br + n : Nat) : Int) = ml then .ok (acc ++ [d]) (br + n) r
        else docArrGo fuel ml (br + n) (acc ++ [d]) r
      | .err e r => .err e r
      | .panicked => .panicked
      | .fuelOut => .fuelOut) := rfl

lemma i64ArrGo_succ (fuel : Nat) (ml : Int) (br : Nat) (acc : List Int) (s : List Nat) :
    i64ArrGo (fuel + 1) ml br acc s = (match readI64 s with
      | .ok v _ r =>
        if ((br + 8 : Nat) : Int) = ml then .ok (acc ++ [v]) (br + 8) r
        else i64ArrGo fuel ml (br + 8) (acc ++ [v]) r
      | .err e r => .err e r
      | .panicked => .panicked
      | .fuelOut => .fuelOut) := rfl

lemma docArrGo_step_ok (fuel : Nat) (ml : Int) (br : Nat) (acc : List (List Nat))
    (s d r : List Nat) (n : Nat) (h : readDoc s = .ok d n r) :
    docArrGo (fuel + 1) ml br acc s =
      (if ((br + n : Nat) : Int) = ml then .ok (acc ++ [d]) (br + n) r
       else docArrGo fuel ml (br + n) (acc ++ [d]) r) := by
  rw [docArrGo_succ, h]

lemma i64ArrGo_step_ok (fuel : Nat) (ml : Int) (br : Nat) (acc : List Int)
    (s r : List Nat) (v : Int) (n : Nat) (h : readI64 s = .ok v n r) :
    i64ArrGo (fuel + 1) ml br acc s =
      (if ((br + 8 : Nat) : Int) = ml then .ok (acc ++ [v]) (br + 8) r
       else i64ArrGo fuel ml (br + 8) (acc ++ [v]) r) := by
  rw [i64ArrGo_succ, h]

lemma docArrGo_enc (ml : Int) (ds : List (List Nat)) :
    ∀ (acc : List (List Nat)) (br fuel : Nat) (t : List Nat), ds ≠ [] →
    (∀ d ∈ ds, d.length + 5 < 2 ^ 31) →
    ((br : Int) + ((ds.flatMap marshalDoc).length : Int) = ml) →
    (ds.flatMap marshalDoc ++ t).length < fuel →
    docArrGo fuel ml br acc (ds.flatMap marshalDoc ++ t)
      = .ok (acc ++ ds) (br + (ds.flatMap marshalDoc).length) t := by
  induction ds with
  | nil => intro _ _ _ _ hne; exact absurd rfl hne
  | cons d rest ih =>
    intro acc br fuel t _ hwf hml hfuel
    have hd : d.length + 5 < 2 ^ 31 := hwf d (by simp)
    have hlen : ((d :: rest).flatMap marshalDoc).length
        = (d.length + 5) + (rest.flatMap marshalDoc).length := by
      simp [List.flatMap_cons, marshalDoc_length]
    cases fuel with
    | zero => simp at hfuel
    | succ fuel2 =>
      have hstream : (d :: rest).flatMap marshalDoc ++ t
          = marshalDoc d ++ (rest.flatMap marshalDoc ++ t) := by
        simp [List.flatMap_cons]
      rw [hstream]
      rw [docArrGo_step_ok fuel2 ml br acc _ d _ _ (readDoc_marshal d _ hd)]
      by_cases hrest : rest = []
      · subst hrest
        simp only [List.flatMap_cons, List.flatMap_nil, List.append_nil, List.nil_append,
          marshalDoc_length] at hml ⊢
        rw [if_pos (by push_cast at hml ⊢; omega)]
      · rw [if_neg (by
          have hpos := flatMap_nonempty_marshal rest hrest
          simp only [hlen] at hml
          push_cast at hml ⊢
          omega)]
        have hml2 : ((br + (d.length + 5) : Nat) : Int)
            + ((rest.flatMap marshalDoc).length : Int) = ml := by
          simp only [hlen] at hml
          push_cast at hml ⊢
          omega
        have hfuel2 : (rest.flatMap marshalDoc ++ t).length < fuel2 := by
          rw [hstream] at hfuel
          simp only [List.length_append, marshalDoc_length] at hfuel ⊢
          omega
        rw [ih (acc ++ [d]) (br + (d.length + 5)) fuel2 t hrest
          (fun d2 hd2 => hwf d2 (List.mem_cons_of_mem _ hd2)) hml2 hfuel2]
        simp only [hlen, List.append_assoc, List.singleton_append, RRes.ok.injEq,
          true_and, and_true]
        omega

lemma flatMap_w64_cons (v : Int) (rest : List Int) :
    (v :: rest).flatMap w64 = w64 v ++ rest.flatMap w64 := by
  simp [List.flatMap_cons]

lemma flatMap_w64_length (vs : List Int) : (vs.flatMap w64).length = 8 * vs.length := by
  induction vs with
  | nil => simp
  | cons v rest ih => simp [List.flatMap_cons, w64_length, ih]; omega

lemma i64ArrGo_enc (ml : Int) (vs : List Int) :
    ∀ (acc : List Int) (br fuel : Nat) (t : List Nat), vs ≠ [] →
    (∀ v ∈ vs, -(2 ^ 63) ≤ v ∧ v < 2 ^ 63) →
    ((br : Int) + ((vs.flatMap w64).length : Int) = ml) →
    (vs.flatMap w64 ++ t).length < fuel →
    i64ArrGo fuel ml br acc (vs.flatMap w64 ++ t)
      = .ok (acc ++ vs) (br + (vs.flatMap w64).length) t := by
  induction vs with
  | nil => intro _ _ _ _ hne; exact absurd rfl hne
  | cons v rest ih =>
    intro acc br fuel t _ hwf hml hfuel
    have hv := hwf v (by simp)
    have hlen : ((v :: rest).flatMap w64).length = 8 + (rest.flatMap w64).length := by
      simp [List.flatMap_cons, w64_length]
    cases fuel with
    | zero => simp at hfuel
    | succ fuel2 =>
      have hstream : (v :: rest).flatMap w64 ++ t = w64 v ++ (rest.flatMap w64 ++ t) := by
        simp [List.flatMap_cons]
      rw [hstream]
      rw [i64ArrGo_step_ok fuel2 ml br acc _ _ v 8
        (readI64_w64 v hv.1 hv.2 (rest.flatMap w64 ++ t))]
      by_cases hrest : rest = []
      · subst hrest
        simp only [List.flatMap_cons, List.flatMap_nil, List.append_nil, List.nil_append,
          w64_length] at hml ⊢
        rw [if_pos (by push_cast at hml ⊢; omega)]
      · have hpos : 0 < (rest.flatMap w64).length := by
          match rest with
          | [] => exact absurd rfl hrest
          | v2 :: rest2 => simp [List.flatMap_cons, w64_length]
        rw [if_neg (by
          simp only [hlen] at hml
          push_cast at hml ⊢
          omega)]
        have hml2 : ((br + 8 : Nat) : Int) + ((rest.flatMap w64).length : Int) = ml := by
          simp only [hlen] at hml
          push_cast at hml ⊢
          omega
        have hfuel2 : (rest.flatMap w64 ++ t).length < fuel2 := by
          rw [hstream] at hfuel
          simp only [List.length_append, w64_length] at hfuel ⊢
          omega
        rw [ih (acc ++ [v]) (br + 8) fuel2 t hrest
          (fun v2 hv2 => hwf v2 (List.mem_cons_of_mem _ hv2)) hml2 hfuel2]
        simp only [hlen, List.append_assoc, List.singleton_append, RRes.ok.injEq,
          true_and, and_true]
        omega

lemma decodeFields_nil (ml : Int) (br : Nat) (s : List Nat) :
    decodeFields ml [] br s = .ok [] br s := rfl

lemma decodeFields_cons (ml : Int) (k : FieldKind) (ks : List FieldKind) (br : Nat)
    (s : List Nat) :
    decodeFields ml (k :: ks) br s =
      (if (br : Int) = ml then .ok ((k :: ks).map zeroVal) br s
      else if ml < (br : Int) then .err .wrongLen s
      else
        match k with
        | .i32F =>
          match readI32 s with
          | .ok v n r => prependOk (.i32V v) (decodeFields ml ks (br + n) r)
          | .err e r => .err e r
          | .panicked => .panicked
          | .fuelOut => .fuelOut
        | .i64F =>
          match readI64 s with
          | .ok v n r => prependOk (.i64V v) (decodeFields ml ks (br + n) r)
          | .err e r => .err e r
          | .panicked => .panicked
          | .fuelOut => .fuelOut
        | .strF =>
          match readCString s with
          | .ok v n r => prependOk (.strV v) (decodeFields ml ks (br + n) r)
          | .err e r => .err e r
          | .panicked => .panicked
          | .fuelOut => .fuelOut
        | .docF =>
          match readDoc s with
          | .ok d n r => prependOk (.docV d) (decodeFields ml ks (br + n) r)
          | .err e r => .err e r
          | .panicked => .panicked
          | .fuelOut => .fuelOut
        | .docArrF =>
          match docArrGo (s.length + 1) ml br [] s with
          | .ok ds brF r => prependOk (.docArrV ds) (decodeFields ml ks brF r)
          | .err e r => .err e r
          | .panicked => .panicked
          | .fuelOut => .fuelOut
        | .i64ArrF =>
          match i64ArrGo (s.length + 1) ml br [] s with
          | .ok vs brF r => prependOk (.i64ArrV vs) (decodeFields ml ks brF r)
          | .err e r => .err e r
          | .panicked => .panicked
          | .fuelOut => .fuelOut) := rfl

lemma dfStep_i32 (ml : Int) (ks : List FieldKind) (br : Nat) (s : List Nat)
    (hne : ¬(br : Int) = ml) (hle : ¬ml < (br : Int)) (v : Int) (n : Nat) (r : List Nat)
    (h : readI32 s = .ok v n r) :
    decodeFields ml (.i32F :: ks) br s
      = prependOk (.i32V v) (decodeFields ml ks (br + n) r) := by
  rw [decodeFields_cons, if_neg hne, if_neg hle, h]

lemma dfStep_i64 (ml : Int) (ks : List FieldKind) (br : Nat) (s : List Nat)
    (hne : ¬(br : Int) = ml) (hle : ¬ml < (br : Int)) (v : Int) (n : Nat) (r : List Nat)
    (h : readI64 s = .ok v n r) :
    decodeFields ml (.i64F :: ks) br s
      = prependOk (.i64V v) (decodeFields ml ks (br + n) r) := by
  rw [decodeFields_cons, if_neg hne, if_neg hle, h]

lemma dfStep_str (ml : Int) (ks : List FieldKind) (br : Nat) (s : List Nat)
    (hne : ¬(br : Int) = ml) (hle : ¬ml < (br : Int)) (v : List Nat) (n : Nat) (r : List Nat)
    (h : readCString s = .ok v n r) :
    decodeFields ml (.strF :: ks) br s
      = prependOk (.strV v) (decodeFields ml ks (br + n) r) := by
  rw [decodeFields_cons, if_neg hne, if_neg hle, h]

lemma dfStep_doc (ml : Int) (ks : List FieldKind) (br : Nat) (s : List Nat)
    (hne : ¬(br : Int) = ml) (hle : ¬ml < (br : Int)) (d : List Nat) (n : Nat) (r : List Nat)
    (h : readDoc s = .ok d n r) :
    decodeFields ml (.docF :: ks) br s
      = prependOk (.docV d) (decodeFields ml ks (br + n) r) := by
  rw [decodeFields_cons, if_neg hne, if_neg hle, h]

lemma dfStep_docArr (ml : Int) (ks : List FieldKind) (br : Nat) (s : List Nat)
    (hne : ¬(br : Int) = ml) (hle : ¬ml < (br : Int)) (ds : List (List Nat)) (brF : Nat)
    (r : List Nat) (h : docArrGo (s.length + 1) ml br [] s = .ok ds brF r) :
    decodeFields ml (.docArrF :: ks) br s
      = prependOk (.docArrV ds) (decodeFields ml ks brF r) := by
  rw [decodeFields_cons, if_neg hne, if_neg hle, h]

lemma dfStep_i64Arr (ml : Int) (ks : List FieldKind) (br : Nat) (s : List Nat)
    (hne : ¬(br : Int) = ml) (hle : ¬ml < (br : Int)) (vs : List Int) (brF : Nat)
    (r : List Nat) (h : i64ArrGo (s.length + 1) ml br [] s = .ok vs brF r) :
    decodeFields ml (.i64ArrF :: ks) br s
      = prependOk (.i64ArrV vs) (decodeFields ml ks brF r) := by
  rw [decodeFields_cons, if_neg hne, if_neg hle, h]

/-- Wellformedness of one in-memory field value against its schema kind:
the kind matches the value's Go type, integers fit their wire width, strings
have no interior zero byte (the decoder stops at the first), a document's
marshalled size fits the signed 32-bit size prefix, and array elements are
nonempty documents (writeBson silently drops empty ones) or in-range
integers. -/
def wfFieldB : FieldKind → FVal → Bool
  | .i32F, .i32V v => decide (-(2 ^ 31) ≤ v ∧ v < 2 ^ 31)
  | .i64F, .i64V v => decide (-(2 ^ 63) ≤ v ∧ v < 2 ^ 63)
  | .strF, .strV s => decide (0 ∉ s)
  | .docF, .docV d => decide (d.length + 5 < 2 ^ 31)
  | .docArrF, .docArrV ds => ds.all (fun d => decide (0 < d.length ∧ d.length + 5 < 2 ^ 31))
  | .i64ArrF, .i64ArrV vs => vs.all (fun v => decide (-(2 ^ 63) ≤ v ∧ v < 2 ^ 63))
  | _, _ => false

/-- A tail of fields all of which are Go zero values encoding to zero bytes
(empty documents and empty arrays, which writeBson skips). -/
def zeroTailB : List FieldKind → List FVal → Bool
  | [], [] => true
  | k :: ks, v :: vs =>
    decide (v = zeroVal k) && decide ((encodeFVal v).length = 0) && zeroTailB ks vs
  | _, _ => false

/-- Validity of a message body against a schema: each field is wellformed,
and once a field encodes to zero bytes (a skipped empty document or array)
every later field must be a zero-byte zero value — otherwise the decoder's
length-driven walk would assign later bytes to earlier fields. -/
def validBody : List FieldKind → List FVal → Bool
  | [], [] => true
  | k :: ks, v :: vs =>
    wfFieldB k v &&
    (if (encodeFVal v).length = 0 then decide (v = zeroVal k) && zeroTailB ks vs
     else validBody ks vs)
  | _, _ => false

/-- In every registered schema the length-terminated array field, when
present, is the final field; this is what lets the array loops stop exactly
at the declared total length. -/
def arraysLastB : List FieldKind → Bool
  | [] => true
  | .docArrF :: ks => decide (ks = [])
  | .i64ArrF :: ks => decide (ks = [])
  | _ :: ks => arraysLastB ks

/-- A valid in-memory message: a registered opcode whose schema the body
fits, a correct totalLength (16 plus the encoded body size, fitting int32),
and header id fields in int32 range. -/
def validMsg (m : Message) : Bool :=
  match schema m.header.opcode with
  | none => false
  | some ks =>
    validBody ks m.body &&
    decide (m.header.messageLength = 16 + (bodySize m : Int)) &&
    decide ((bodySize m : Int) + 16 < 2 ^ 31) &&
    decide (-(2 ^ 31) ≤ m.header.requestID ∧ m.header.requestID < 2 ^ 31) &&
    decide (-(2 ^ 31) ≤ m.header.responseTo ∧ m.header.responseTo < 2 ^ 31)

lemma zeroTailB_spec (ks : List FieldKind) (vs : List FVal) (h : zeroTailB ks vs = true) :
    vs = ks.map zeroVal ∧ (vs.flatMap encodeFVal).length = 0 := by
  induction ks generalizing vs with
  | nil =>
    cases vs with
    | nil => simp
    | cons v vs2 => simp [zeroTailB] at h
  | cons k ks2 ih =>
    cases vs with
    | nil => simp [zeroTailB] at h
    | cons v vs2 =>
      simp only [zeroTailB, Bool.and_eq_true, decide_eq_true_eq] at h
      obtain ⟨⟨hz, hzl⟩, ht⟩ := h
      obtain ⟨ih1, ih2⟩ := ih vs2 ht
      subst hz
      subst ih1
      refine ⟨by simp, by simp [hzl, ih2]⟩

lemma validBody_zero (ks : List FieldKind) (body : List FVal)
    (hv : validBody ks body = true)
    (hsz : (body.flatMap encodeFVal).length = 0) :
    body = ks.map zeroVal := by
  cases ks with
  | nil =>
    cases body with
    | nil => simp
    | cons v vs => simp [validBody] at hv
  | cons k ks2 =>
    cases body with
    | nil => simp [validBody] at hv
    | cons v vs =>
      simp only [validBody, Bool.and_eq_true] at hv
      obtain ⟨hwf, hbr⟩ := hv
      have hv0 : (encodeFVal v).length = 0 := by
        simp only [List.flatMap_cons, List.length_append] at hsz
        omega
      rw [if_pos hv0, Bool.and_eq_true, decide_eq_true_eq] at hbr
      obtain ⟨hz, ht⟩ := hbr
      obtain ⟨h1, _⟩ := zeroTailB_spec ks2 vs ht
      subst hz h1
      simp

lemma flatMap_len_zero {α : Type} (f : α → List Nat) (l : List α)
    (h : (l.flatMap f).length = 0) : l.flatMap f = [] := by
  cases he : l.flatMap f with
  | nil => rfl
  | cons a t => rw [he] at h; simp at h

lemma encodeFVal_docArr (ds : List (List Nat))
    (h : ∀ d ∈ ds, 0 < d.length) :
    encodeFVal (.docArrV ds) = ds.flatMap marshalDoc := by
  simp only [encodeFVal]
  induction ds with
  | nil => simp
  | cons d rest ih =>
    simp only [List.flatMap_cons, if_pos (h d (by simp))]
    rw [ih (fun d2 hd2 => h d2 (List.mem_cons_of_mem _ hd2))]

lemma decodeFields_enc (ml : Int) (ks : List FieldKind) :
    ∀ (body : List FVal) (br : Nat) (t : List Nat),
    validBody ks body = true → arraysLastB ks = true →
    ((br : Int) + ((body.flatMap encodeFVal).length : Int) = ml) →
    decodeFields ml ks br (body.flatMap encodeFVal ++ t)
      = .ok body (br + (body.flatMap encodeFVal).length) t := by
  induction ks with
  | nil =>
    intro body br t hv _ _
    cases body with
    | nil => simp [decodeFields_nil]
    | cons v vs => simp [validBody] at hv
  | cons k ks2 ih =>
    intro body br t hv hal hml
    cases body with
    | nil => simp [validBody] at hv
    | cons v vs =>
      simp only [validBody, Bool.and_eq_true] at hv
      obtain ⟨hwf, hbr⟩ := hv
      have hlen : ((v :: vs).flatMap encodeFVal).length
          = (encodeFVal v).length + (vs.flatMap encodeFVal).length := by
        simp
      by_cases hml0 : (br : Int) = ml
      · -- the short-circuit case: every remaining field encodes to zero bytes
        have hsz : ((v :: vs).flatMap encodeFVal).length = 0 := by omega
        have hz := validBody_zero (k :: ks2) (v :: vs)
          (by simp only [validBody, Bool.and_eq_true]; exact ⟨hwf, hbr⟩) hsz
        have hflat : (v :: vs).flatMap encodeFVal = [] := flatMap_len_zero _ _ hsz
        rw [hflat, List.nil_append, decodeFields_cons, if_pos hml0, ← hz]
        simp
      · have hle : ¬ml < (br : Int) := by omega
        have hv0 : ¬(encodeFVal v).length = 0 := by
          intro h0
          rw [if_pos h0, Bool.and_eq_true, decide_eq_true_eq] at hbr
          obtain ⟨hz, ht⟩ := hbr
          obtain ⟨_, h2⟩ := zeroTailB_spec ks2 vs ht
          omega
        rw [if_neg hv0] at hbr
        have hstream : (v :: vs).flatMap encodeFVal ++ t
            = encodeFVal v ++ (vs.flatMap encodeFVal ++ t) := by simp
        rw [hstream]
        have hml2 : (((br + (encodeFVal v).length : Nat)) : Int)
            + ((vs.flatMap encodeFVal).length : Int) = ml := by push_cast at hml ⊢; omega
        cases k with
        | i32F =>
          cases v with
          | i32V w =>
            simp only [wfFieldB, decide_eq_true_eq] at hwf
            have hal2 : arraysLastB ks2 = true := hal
            have h32 : readI32 (encodeFVal (FVal.i32V w) ++ (vs.flatMap encodeFVal ++ t))
                = .ok w 4 (vs.flatMap encodeFVal ++ t) := by
              have he : encodeFVal (FVal.i32V w) = w32 w := rfl
              rw [he]; exact readI32_w32 w hwf.1 hwf.2 _
            rw [dfStep_i32 ml ks2 br _ hml0 hle w 4 _ h32]
            have he4 : (encodeFVal (FVal.i32V w)).length = 4 := by
              simp [encodeFVal, w32_length]
            rw [he4] at hml2
            rw [ih vs (br + 4) t hbr hal2 hml2]
            simp only [prependOk, hlen, he4]
            congr 1
            omega
          | i64V _ => simp [wfFieldB] at hwf
          | strV _ => simp [wfFieldB] at hwf
          | docV _ => simp [wfFieldB] at hwf
          | docArrV _ => simp [wfFieldB] at hwf
          | i64ArrV _ => simp [wfFieldB] at hwf
        | i64F =>
          cases v with
          | i64V w =>
            simp only [wfFieldB, decide_eq_true_eq] at hwf
            have hal2 : arraysLastB ks2 = true := hal
            have h64 : readI64 (encodeFVal (FVal.i64V w) ++ (vs.flatMap encodeFVal ++ t))
                = .ok w 8 (vs.flatMap encodeFVal ++ t) := by
              have he : encodeFVal (FVal.i64V w) = w64 w := rfl
              rw [he]; exact readI64_w64 w hwf.1 hwf.2 _
            rw [dfStep_i64 ml ks2 br _ hml0 hle w 8 _ h64]
            have he8 : (encodeFVal (FVal.i64V w)).length = 8 := by
              simp [encodeFVal, w64_length]
            rw [he8] at hml2
            rw [ih vs (br + 8) t hbr hal2 hml2]
            simp only [prependOk, hlen, he8]
            congr 1
            omega
          | i32V _ => simp [wfFieldB] at hwf
          | strV _ => simp [wfFieldB] at hwf
          | docV _ => simp [wfFieldB] at hwf
          | docArrV _ => simp [wfFieldB] at hwf
          | i64ArrV _ => simp [wfFieldB] at hwf
        | strF =>
          cases v with
          | strV str =>
            simp only [wfFieldB, decide_eq_true_eq] at hwf
            have hal2 : arraysLastB ks2 = true := hal
            have hes : encodeFVal (FVal.strV str) = str ++ [0] := rfl
            have hcs : readCString (encodeFVal (FVal.strV str) ++ (vs.flatMap encodeFVal ++ t))
                = .ok str (str.length + 1) (vs.flatMap encodeFVal ++ t) := by
              rw [hes, List.append_assoc, List.singleton_append]
              exact readCString_enc str _ hwf
            rw [dfStep_str ml ks2 br _ hml0 hle str (str.length + 1) _ hcs]
            have hel : (encodeFVal (FVal.strV str)).length = str.length + 1 := by
              simp [encodeFVal]
            rw [hel] at hml2
            rw [ih vs (br + (str.length + 1)) t hbr hal2 hml2]
            simp only [prependOk, hlen, hel]
            congr 1
            omega
          | i32V _ => simp [wfFieldB] at hwf
          | i64V _ => simp [wfFieldB] at hwf
          | docV _ => simp [wfFieldB] at hwf
          | docArrV _ => simp [wfFieldB] at hwf
          | i64ArrV _ => simp [wfFieldB] at hwf
        | docF =>
          cases v with
          | docV d =>
            simp only [wfFieldB, decide_eq_true_eq] at hwf
            have hal2 : arraysLastB ks2 = true := hal
            have hdne : 0 < d.length := by
              by_contra hc
              have hd0 : d.length = 0 := by omega
              apply hv0
              simp [encodeFVal, hd0]
            have hed : encodeFVal (FVal.docV d) = marshalDoc d := by
              simp [encodeFVal, hdne]
            have hrd : readDoc (encodeFVal (FVal.docV d) ++ (vs.flatMap encodeFVal ++ t))
                = .ok d (d.length + 5) (vs.flatMap encodeFVal ++ t) := by
              rw [hed]; exact readDoc_marshal d _ hwf
            rw [dfStep_doc ml ks2 br _ hml0 hle d (d.length + 5) _ hrd]
            have hel : (encodeFVal (FVal.docV d)).length = d.length + 5 := by
              rw [hed, marshalDoc_length]
            rw [hel] at hml2
            rw [ih vs (br + (d.length + 5)) t hbr hal2 hml2]
            simp only [prependOk, hlen, hel]
            congr 1
            omega
          | i32V _ => simp [wfFieldB] at hwf
          | i64V _ => simp [wfFieldB] at hwf
          | strV _ => simp [wfFieldB] at hwf
          | docArrV _ => simp [wfFieldB] at hwf
          | i64ArrV _ => simp [wfFieldB] at hwf
        | docArrF =>
          cases v with
          | docArrV ds =>
            simp only [wfFieldB, List.all_eq_true, decide_eq_true_eq] at hwf
            have hks2 : ks2 = [] := by
              simp only [arraysLastB, decide_eq_true_eq] at hal
              exact hal
            subst hks2
            have hvs : vs = [] := by
              cases vs with
              | nil => rfl
              | cons v2 vs2 => simp [validBody] at hbr
            subst hvs
            have hdsne : ds ≠ [] := by
              intro hc
              apply hv0
              simp [encodeFVal, hc]
            have hed : encodeFVal (FVal.docArrV ds) = ds.flatMap marshalDoc :=
              encodeFVal_docArr ds (fun d hd => (hwf d hd).1)
            have hml3 : (br : Int) + ((ds.flatMap marshalDoc).length : Int) = ml := by
              simp only [List.flatMap_nil, List.length_nil, List.flatMap_cons,
                List.append_nil, hed] at hml
              omega
            have hgo : docArrGo ((encodeFVal (FVal.docArrV ds)
                ++ ([].flatMap encodeFVal ++ t)).length + 1) ml br []
                (encodeFVal (FVal.docArrV ds) ++ ([].flatMap encodeFVal ++ t))
                = .ok ds (br + (ds.flatMap marshalDoc).length) t := by
              have hsimp2 : ([] : List FVal).flatMap encodeFVal ++ t = t := by simp
              rw [hed, hsimp2]
              have hc := docArrGo_enc ml ds [] br ((ds.flatMap marshalDoc ++ t).length + 1) t
                hdsne (fun d hd => (hwf d hd).2) hml3 (by omega)
              simpa using hc
            rw [dfStep_docArr ml [] br _ hml0 hle ds
              (br + (ds.flatMap marshalDoc).length) t hgo]
            rw [decodeFields_nil]
            simp [prependOk, hed]
          | i32V _ => simp [wfFieldB] at hwf
          | i64V _ => simp [wfFieldB] at hwf
          | strV _ => simp [wfFieldB] at hwf
          | docV _ => simp [wfFieldB] at hwf
          | i64ArrV _ => simp [wfFieldB] at hwf
        | i64ArrF =>
          cases v with
          | i64ArrV ws =>
            simp only [wfFieldB, List.all_eq_true, decide_eq_true_eq] at hwf
            have hks2 : ks2 = [] := by
              simp only [arraysLastB, decide_eq_true_eq] at hal
              exact hal
            subst hks2
            have hvs : vs = [] := by
              cases vs with
              | nil => rfl
              | cons v2 vs2 => simp [validBody] at hbr
            subst hvs
            have hwsne : ws ≠ [] := by
              intro hc
              apply hv0
              simp [encodeFVal, hc]
            have hed : encodeFVal (FVal.i64ArrV ws) = ws.flatMap w64 := rfl
            have hml3 : (br : Int) + ((ws.flatMap w64).length : Int) = ml := by
              simp only [List.flatMap_nil, List.length_nil, List.flatMap_cons,
                List.append_nil, hed] at hml
              omega
            have hgo : i64ArrGo ((encodeFVal (FVal.i64ArrV ws)
                ++ ([].flatMap encodeFVal ++ t)).length + 1) ml br []
                (encodeFVal (FVal.i64ArrV ws) ++ ([].flatMap encodeFVal ++ t))
                = .ok ws (br + (ws.flatMap w64).length) t := by
              have hsimp2 : ([] : List FVal).flatMap encodeFVal ++ t = t := by simp
              rw [hed, hsimp2]
              have hc := i64ArrGo_enc ml ws [] br ((ws.flatMap w64 ++ t).length + 1) t
                hwsne hwf hml3 (by omega)
              simpa using hc
            rw [dfStep_i64Arr ml [] br _ hml0 hle ws
              (br + (ws.flatMap w64).length) t hgo]
            rw [decodeFields_nil]
            simp [prependOk, hed]
          | i32V _ => simp [wfFieldB] at hwf
          | i64V _ => simp [wfFieldB] at hwf
          | strV _ => simp [wfFieldB] at hwf
          | docV _ => simp [wfFieldB] at hwf
          | docArrV _ => simp [wfFieldB] at hwf

lemma headerBytes_length (h : MsgHeader) : (headerBytes h).length = 16 := by
  simp [headerBytes, w32_length]

lemma parseHeader_enc (h : MsgHeader) (t : List Nat)
    (h1 : -(2 ^ 31) ≤ h.messageLength ∧ h.messageLength < 2 ^ 31)
    (h2 : -(2 ^ 31) ≤ h.requestID ∧ h.requestID < 2 ^ 31)
    (h3 : -(2 ^ 31) ≤ h.responseTo ∧ h.responseTo < 2 ^ 31)
    (h4 : -(2 ^ 31) ≤ h.opcode ∧ h.opcode < 2 ^ 31) :
    parseHeader (headerBytes h ++ t) = h := by
  have e1 : headerBytes h ++ t
      = w32 h.messageLength
        ++ (w32 h.requestID ++ (w32 h.responseTo ++ (w32 h.opcode ++ t))) := by
    simp [headerBytes]
  have hd4 : (headerBytes h ++ t).drop 4
      = w32 h.requestID ++ (w32 h.responseTo ++ (w32 h.opcode ++ t)) := by
    rw [e1]; exact drop_of_append _ _ _ (w32_length _)
  have hd8 : (headerBytes h ++ t).drop 8
      = w32 h.responseTo ++ (w32 h.opcode ++ t) := by
    have : (8 : Nat) = 4 + 4 := rfl
    rw [this, ← List.drop_drop, hd4]
    exact drop_of_append _ _ _ (w32_length _)
  have hd12 : (headerBytes h ++ t).drop 12 = w32 h.opcode ++ t := by
    have h12 : (12 : Nat) = 8 + 4 := rfl
    rw [h12, ← List.drop_drop, hd8]
    exact drop_of_append _ _ _ (w32_length _)
  rw [parseHeader, hd4, hd8, hd12, e1]
  rw [rd32_w32 _ h1.1 h1.2, rd32_w32 _ h2.1 h2.2, rd32_w32 _ h3.1 h3.2,
    rd32_w32 _ h4.1 h4.2]

lemma schema_range (op : Int) (ks : List FieldKind) (h : schema op = some ks) :
    -(2 ^ 31) ≤ op ∧ op < 2 ^ 31 := by
  rw [schema] at h
  split_ifs at h with h1 h2 h3 h4 h5 h6 h7 h8
  all_goals first
    | (constructor <;> omega)
    | exact Option.noConfusion h

lemma schema_arraysLast (op : Int) (ks : List FieldKind) (h : schema op = some ks) :
    arraysLastB ks = true := by
  rw [schema] at h
  split_ifs at h
  all_goals first
    | (injection h with h2; subst h2; rfl)
    | exact Option.noConfusion h

lemma WriteRequest_length (m : Message) :
    (WriteRequest m).length = 16 + bodySize m := by
  simp [WriteRequest, bodySize, headerBytes_length]

lemma encode_decode (m : Message) (t : List Nat) (hv : validMsg m = true) :
    ReadRequest (WriteRequest m ++ t) = .ok m t := by
  rcases hks : schema m.header.opcode with _ | ks
  · rw [validMsg, hks] at hv; simp at hv
  · rw [validMsg, hks] at hv
    simp only [Bool.and_eq_true, decide_eq_true_eq] at hv
    obtain ⟨⟨⟨⟨hvb, hml⟩, hml31⟩, hrid⟩, hrto⟩ := hv
    have hbs0 : (0 : Int) ≤ (bodySize m : Int) := by positivity
    have hph : parseHeader (WriteRequest m ++ t) = m.header := by
      rw [WriteRequest, List.append_assoc]
      exact parseHeader_enc m.header _
        ⟨by omega, by omega⟩ hrid hrto (schema_range _ _ hks)
    have hlen : (WriteRequest m ++ t).length = 16 + bodySize m + t.length := by
      simp [WriteRequest_length]
    have hdrop : (WriteRequest m ++ t).drop 16 = m.body.flatMap encodeFVal ++ t := by
      rw [WriteRequest, List.append_assoc]
      exact drop_of_append _ _ _ (headerBytes_length _)
    have hdf := decodeFields_enc m.header.messageLength ks m.body 16 t hvb
      (schema_arraysLast _ _ hks)
      (by rw [hml, bodySize]; omega)
    rw [ReadRequest]
    rw [if_neg (by rw [hlen]; omega), if_neg (by rw [hlen]; omega)]
    rw [hph, hks, hdrop]
    simp only [hdf]

lemma readI32_no_fuelOut (s : List Nat) : readI32 s ≠ .fuelOut := by
  rw [readI32]; split_ifs <;> simp

lemma readI32_no_panic (s : List Nat) : readI32 s ≠ .panicked := by
  rw [readI32]; split_ifs <;> simp

lemma readI32_ok (s : List Nat) (v : Int) (n : Nat) (r : List Nat)
    (h : readI32 s = .ok v n r) : r = s.drop 4 := by
  rw [readI32] at h
  split_ifs at h
  simp only [RRes.ok.injEq] at h
  exact h.2.2.symm

lemma readI64_no_fuelOut (s : List Nat) : readI64 s ≠ .fuelOut := by
  rw [readI64]; split_ifs <;> simp

lemma readI64_no_panic (s : List Nat) : readI64 s ≠ .panicked := by
  rw [readI64]; split_ifs <;> simp

lemma readI64_ok (s : List Nat) (v : Int) (n : Nat) (r : List Nat)
    (h : readI64 s = .ok v n r) : r = s.drop 8 ∧ 8 ≤ s.length := by
  rw [readI64] at h
  split_ifs at h with h1
  simp only [RRes.ok.injEq] at h
  exact ⟨h.2.2.symm, h1⟩

lemma readCString_no_fuelOut (s : List Nat) : readCString s ≠ .fuelOut := by
  induction s with
  | nil => simp [readCString]
  | cons b t ih =>
    rw [readCString]
    split_ifs
    · simp
    · rcases h : readCString t with ⟨v, n, r⟩ | ⟨e, r⟩ | - | - <;> simp_all

lemma readCString_no_panic (s : List Nat) : readCString s ≠ .panicked := by
  induction s with
  | nil => simp [readCString]
  | cons b t ih =>
    rw [readCString]
    split_ifs
    · simp
    · rcases h : readCString t with ⟨v, n, r⟩ | ⟨e, r⟩ | - | - <;> simp_all

lemma readCString_ok (s : List Nat) : ∀ (v : List Nat) (n : Nat) (r : List Nat),
    readCString s = .ok v n r → r = s.drop n := by
  induction s with
  | nil => intro v n r h; simp [readCString] at h
  | cons b t ih =>
    intro v n r h
    rw [readCString] at h
    split_ifs at h with hb
    · simp only [RRes.ok.injEq] at h
      rw [← h.2.1, ← h.2.2]
      simp
    · rcases h2 : readCString t with ⟨v2, n2, r2⟩ | ⟨e, r2⟩ | - | - <;> rw [h2] at h <;>
        try exact RRes.noConfusion h
      simp only [RRes.ok.injEq] at h
      obtain ⟨-, hn, hr⟩ := h
      have := ih v2 n2 r2 h2
      rw [← hn, ← hr, this]
      simp [List.drop_succ_cons]

lemma readDoc_no_fuelOut (s : List Nat) : readDoc s ≠ .fuelOut := by
  simp only [readDoc]
  split_ifs <;> try simp
  rcases unmarshalBlob (s.take (rd32 s).toNat) with _ | d <;> simp

lemma natFromLe_bound (bs : List Nat) (h : ∀ b ∈ bs, b < 128) :
    255 * natFromLe bs ≤ 127 * (2 ^ (8 * bs.length) - 1) := by
  induction bs with
  | nil => simp [natFromLe]
  | cons b t ih =>
    have hb : b < 128 := h b (by simp)
    have ht := ih (fun x hx => h x (List.mem_cons_of_mem _ hx))
    have hpow : (2 : Nat) ^ (8 * (b :: t).length) = 256 * 2 ^ (8 * t.length) := by
      simp only [List.length_cons]
      ring
    rw [natFromLe, hpow]
    have h1 : (1 : Nat) ≤ 2 ^ (8 * t.length) := Nat.one_le_two_pow
    omega

lemma rd32_nonneg (s : List Nat) (h : ∀ b ∈ s, b < 128) : 0 ≤ rd32 s := by
  rw [rd32, signedOf]
  have hb := natFromLe_bound (s.take 4) (fun b hb => h b (List.mem_of_mem_take hb))
  have hl : (s.take 4).length ≤ 4 := by simp
  have hpow : (2 : Nat) ^ (8 * (s.take 4).length) ≤ 2 ^ 32 :=
    Nat.pow_le_pow_right (by norm_num) (by omega)
  have hn : natFromLe (s.take 4) < 2 ^ 31 := by
    have h32 : (2 : Nat) ^ 32 = 4294967296 := by norm_num
    rw [h32] at hpow
    omega
  have hclt : ((natFromLe (s.take 4) : Nat) : Int) < 2 ^ (8 * 4 - 1) := by
    norm_num at hn ⊢
    omega
  rw [if_pos hclt]
  omega

lemma readDoc_no_panic (s : List Nat) (h : ∀ b ∈ s, b < 128) : readDoc s ≠ .panicked := by
  simp only [readDoc]
  split_ifs with h1 h2 h3
  · simp
  · exact absurd (rd32_nonneg s h) (by omega)
  · simp
  · rcases unmarshalBlob (s.take (rd32 s).toNat) with _ | d <;> simp

lemma docArrGo_no_fuelOut :
    ∀ (fuel : Nat) (ml : Int) (br : Nat) (acc : List (List Nat)) (s : List Nat),
    s.length < fuel → docArrGo fuel ml br acc s ≠ .fuelOut := by
  intro fuel
  induction fuel with
  | zero => intro ml br acc s hlt; omega
  | succ f ih =>
    intro ml br acc s hlt
    rcases hrd : readDoc s with ⟨d, n, r⟩ | ⟨e, r⟩ | - | -
    · rw [docArrGo_step_ok f ml br acc s d r n hrd]
      obtain ⟨h5, hns, hr⟩ := readDoc_ok s d n r hrd
      split_ifs
      · simp
      · exact ih ml (br + n) (acc ++ [d]) r (by rw [hr]; simp; omega)
    · rw [docArrGo_succ, hrd]; simp
    · rw [docArrGo_succ, hrd]; simp
    · exact absurd hrd (readDoc_no_fuelOut s)

lemma docArrGo_no_panic :
    ∀ (fuel : Nat) (ml : Int) (br : Nat) (acc : List (List Nat)) (s : List Nat),
    (∀ b ∈ s, b < 128) → docArrGo fuel ml br acc s ≠ .panicked := by
  intro fuel
  induction fuel with
  | zero => intro ml br acc s hb; simp [docArrGo]
  | succ f ih =>
    intro ml br acc s hb
    rcases hrd : readDoc s with ⟨d, n, r⟩ | ⟨e, r⟩ | - | -
    · rw [docArrGo_step_ok f ml br acc s d r n hrd]
      obtain ⟨h5, hns, hr⟩ := readDoc_ok s d n r hrd
      split_ifs
      · simp
      · exact ih ml (br + n) (acc ++ [d]) r
          (fun b hbm => hb b (by rw [hr] at hbm; exact List.mem_of_mem_drop hbm))
    · rw [docArrGo_succ, hrd]; simp
    · exact absurd hrd (readDoc_no_panic s hb)
    · exact absurd hrd (readDoc_no_fuelOut s)

lemma docArrGo_ok_rest :
    ∀ (fuel : Nat) (ml : Int) (br : Nat) (acc : List (List Nat)) (s : List Nat)
    (ds : List (List Nat)) (brF : Nat) (r : List Nat),
    docArrGo fuel ml br acc s = .ok ds brF r → ∃ k, r = s.drop k := by
  intro fuel
  induction fuel with
  | zero => intro ml br acc s ds brF r h; simp [docArrGo] at h
  | succ f ih =>
    intro ml br acc s ds brF r h
    rcases hrd : readDoc s with ⟨d, n, r2⟩ | ⟨e, r2⟩ | - | -
    · rw [docArrGo_step_ok f ml br acc s d r2 n hrd] at h
      obtain ⟨h5, hns, hr⟩ := readDoc_ok s d n r2 hrd
      split_ifs at h with hc
      · simp only [RRes.ok.injEq] at h
        exact ⟨n, by rw [← h.2.2, hr]⟩
      · obtain ⟨k, hk⟩ := ih ml (br + n) (acc ++ [d]) r2 ds brF r h
        exact ⟨k + n, by rw [hk, hr, List.drop_drop, Nat.add_comm]⟩
    · rw [docArrGo_succ, hrd] at h; exact absurd h (by simp)
    · rw [docArrGo_succ, hrd] at h; exact absurd h (by simp)
    · exact absurd hrd (readDoc_no_fuelOut s)

lemma i64ArrGo_no_fuelOut :
    ∀ (fuel : Nat) (ml : Int) (br : Nat) (acc : List Int) (s : List Nat),
    s.length < fuel → i64ArrGo fuel ml br acc s ≠ .fuelOut := by
  intro fuel
  induction fuel with
  | zero => intro ml br acc s hlt; omega
  | succ f ih =>
    intro ml br acc s hlt
    rcases hrd : readI64 s with ⟨v, n, r⟩ | ⟨e, r⟩ | - | -
    · rw [i64ArrGo_step_ok f ml br acc s r v n hrd]
      obtain ⟨hr, h8⟩ := readI64_ok s v n r hrd
      split_ifs
      · simp
      · exact ih ml (br + 8) (acc ++ [v]) r (by rw [hr]; simp; omega)
    · rw [i64ArrGo_succ, hrd]; simp
    · exact absurd hrd (readI64_no_panic s)
    · exact absurd hrd (readI64_no_fuelOut s)

lemma i64ArrGo_no_panic :
    ∀ (fuel : Nat) (ml : Int) (br : Nat) (acc : List Int) (s : List Nat),
    i64ArrGo fuel ml br acc s ≠ .panicked := by
  intro fuel
  induction fuel with
  | zero => intro ml br acc s; simp [i64ArrGo]
  | succ f ih =>
    intro ml br acc s
    rcases hrd : readI64 s with ⟨v, n, r⟩ | ⟨e, r⟩ | - | -
    · rw [i64ArrGo_step_ok f ml br acc s r v n hrd]
      split_ifs
      · simp
      · exact ih ml (br + 8) (acc ++ [v]) r
    · rw [i64ArrGo_succ, hrd]; simp
    · exact absurd hrd (readI64_no_panic s)
    · exact absurd hrd (readI64_no_fuelOut s)

lemma i64ArrGo_ok_rest :
    ∀ (fuel : Nat) (ml : Int) (br : Nat) (acc : List Int) (s : List Nat)
    (vs : List Int) (brF : Nat) (r : List Nat),
    i64ArrGo fuel ml br acc s = .ok vs brF r → ∃ k, r = s.drop k := by
  intro fuel
  induction fuel with
  | zero => intro ml br acc s vs brF r h; simp [i64ArrGo] at h
  | succ f ih =>
    intro ml br acc s vs brF r h
    rcases hrd : readI64 s with ⟨v, n, r2⟩ | ⟨e, r2⟩ | - | -
    · rw [i64ArrGo_step_ok f ml br acc s r2 v n hrd] at h
      obtain ⟨hr, h8⟩ := readI64_ok s v n r2 hrd
      split_ifs at h with hc
      · simp only [RRes.ok.injEq] at h
        exact ⟨8, by rw [← h.2.2, hr]⟩
      · obtain ⟨k, hk⟩ := ih ml (br + 8) (acc ++ [v]) r2 vs brF r h
        exact ⟨k + 8, by rw [hk, hr, List.drop_drop, Nat.add_comm]⟩
    · rw [i64ArrGo_succ, hrd] at h; exact absurd h (by simp)
    · exact absurd hrd (readI64_no_panic s)
    · exact absurd hrd (readI64_no_fuelOut s)

lemma prependOk_ne_fuelOut (v : FVal) (x : RRes (List FVal)) (h : x ≠ .fuelOut) :
    prependOk v x ≠ .fuelOut := by
  cases x with
  | ok a n r => intro hcon; exact RRes.noConfusion hcon
  | err e r => intro hcon; exact RRes.noConfusion hcon
  | panicked => intro hcon; exact RRes.noConfusion hcon
  | fuelOut => exact absurd rfl h

lemma prependOk_ne_panicked (v : FVal) (x : RRes (List FVal)) (h : x ≠ .panicked) :
    prependOk v x ≠ .panicked := by
  cases x with
  | ok a n r => intro hcon; exact RRes.noConfusion hcon
  | err e r => intro hcon; exact RRes.noConfusion hcon
  | panicked => exact absurd rfl h
  | fuelOut => intro hcon; exact RRes.noConfusion hcon

lemma decodeFields_no_fuelOut (ml : Int) (ks : List FieldKind) :
    ∀ (br : Nat) (s : List Nat), decodeFields ml ks br s ≠ .fuelOut := by
  induction ks with
  | nil => intro br s hcon; exact RRes.noConfusion hcon
  | cons k ks2 ih =>
    intro br s
    by_cases hne : (br : Int) = ml
    · intro hcon
      rw [decodeFields_cons, if_pos hne] at hcon
      exact RRes.noConfusion hcon
    · by_cases hlt : ml < (br : Int)
      · intro hcon
        rw [decodeFields_cons, if_neg hne, if_pos hlt] at hcon
        exact RRes.noConfusion hcon
      · intro hcon
        rw [decodeFields_cons, if_neg hne, if_neg hlt] at hcon
        cases k with
        | i32F =>
          rcases h : readI32 s with ⟨v, n, r⟩ | ⟨e, r⟩ | - | - <;> rw [h] at hcon
          · exact prependOk_ne_fuelOut _ _ (ih (br + n) r) hcon
          · exact RRes.noConfusion hcon
          · exact RRes.noConfusion hcon
          · exact absurd h (readI32_no_fuelOut s)
        | i64F =>
          rcases h : readI64 s with ⟨v, n, r⟩ | ⟨e, r⟩ | - | - <;> rw [h] at hcon
          · exact prependOk_ne_fuelOut _ _ (ih (br + n) r) hcon
          · exact RRes.noConfusion hcon
          · exact RRes.noConfusion hcon
          · exact absurd h (readI64_no_fuelOut s)
        | strF =>
          rcases h : readCString s with ⟨v, n, r⟩ | ⟨e, r⟩ | - | - <;> rw [h] at hcon
          · exact prependOk_ne_fuelOut _ _ (ih (br + n) r) hcon
          · exact RRes.noConfusion hcon
          · exact RRes.noConfusion hcon
          · exact absurd h (readCString_no_fuelOut s)
        | docF =>
          rcases h : readDoc s with ⟨v, n, r⟩ | ⟨e, r⟩ | - | - <;> rw [h] at hcon
          · exact prependOk_ne_fuelOut _ _ (ih (br + n) r) hcon
          · exact RRes.noConfusion hcon
          · exact RRes.noConfusion hcon
          · exact absurd h (readDoc_no_fuelOut s)
        | docArrF =>
          rcases h : docArrGo (s.length + 1) ml br [] s with ⟨ds, brF, r⟩ | ⟨e, r⟩ | - | - <;>
            rw [h] at hcon
          · exact prependOk_ne_fuelOut _ _ (ih brF r) hcon
          · exact RRes.noConfusion hcon
          · exact RRes.noConfusion hcon
          · exact absurd h (docArrGo_no_fuelOut (s.length + 1) ml br [] s (by omega))
        | i64ArrF =>
          rcases h : i64ArrGo (s.length + 1) ml br [] s with ⟨vs, brF, r⟩ | ⟨e, r⟩ | - | - <;>
            rw [h] at hcon
          · exact prependOk_ne_fuelOut _ _ (ih brF r) hcon
          · exact RRes.noConfusion hcon
          · exact RRes.noConfusion hcon
          · exact absurd h (i64ArrGo_no_fuelOut (s.length + 1) ml br [] s (by omega))

lemma decodeFields_no_panic (ml : Int) (ks : List FieldKind) :
    ∀ (br : Nat) (s : List Nat), (∀ b ∈ s, b < 128) →
    decodeFields ml ks br s ≠ .panicked := by
  induction ks with
  | nil => intro br s _ hcon; exact RRes.noConfusion hcon
  | cons k ks2 ih =>
    intro br s hb
    by_cases hne : (br : Int) = ml
    · intro hcon
      rw [decodeFields_cons, if_pos hne] at hcon
      exact RRes.noConfusion hcon
    · by_cases hlt : ml < (br : Int)
      · intro hcon
        rw [decodeFields_cons, if_neg hne, if_pos hlt] at hcon
        exact RRes.noConfusion hcon
      · intro hcon
        rw [decodeFields_cons, if_neg hne, if_neg hlt] at hcon
        cases k with
        | i32F =>
          rcases h : readI32 s with ⟨v, n, r⟩ | ⟨e, r⟩ | - | - <;> rw [h] at hcon
          · refine prependOk_ne_panicked _ _ (ih (br + n) r ?_) hcon
            intro b hbm
            rw [readI32_ok s v n r h] at hbm
            exact hb b (List.mem_of_mem_drop hbm)
          · exact RRes.noConfusion hcon
          · exact absurd h (readI32_no_panic s)
          · exact RRes.noConfusion hcon
        | i64F =>
          rcases h : readI64 s with ⟨v, n, r⟩ | ⟨e, r⟩ | - | - <;> rw [h] at hcon
          · refine prependOk_ne_panicked _ _ (ih (br + n) r ?_) hcon
            intro b hbm
            rw [(readI64_ok s v n r h).1] at hbm
            exact hb b (List.mem_of_mem_drop hbm)
          · exact RRes.noConfusion hcon
          · exact absurd h (readI64_no_panic s)
          · exact RRes.noConfusion hcon
        | strF =>
          rcases h : readCString s with ⟨v, n, r⟩ | ⟨e, r⟩ | - | - <;> rw [h] at hcon
          · refine prependOk_ne_panicked _ _ (ih (br + n) r ?_) hcon
            intro b hbm
            rw [readCString_ok s v n r h] at hbm
            exact hb b (List.mem_of_mem_drop hbm)
          · exact RRes.noConfusion hcon
          · exact absurd h (readCString_no_panic s)
          · exact RRes.noConfusion hcon
        | docF =>
          rcases h : readDoc s with ⟨v, n, r⟩ | ⟨e, r⟩ | - | - <;> rw [h] at hcon
          · refine prependOk_ne_panicked _ _ (ih (br + n) r ?_) hcon
            intro b hbm
            rw [(readDoc_ok s v n r h).2.2] at hbm
            exact hb b (List.mem_of_mem_drop hbm)
          · exact RRes.noConfusion hcon
          · exact absurd h (readDoc_no_panic s hb)
          · exact RRes.noConfusion hcon
        | docArrF =>
          rcases h : docArrGo (s.length + 1) ml br [] s with ⟨ds, brF, r⟩ | ⟨e, r⟩ | - | - <;>
            rw [h] at hcon
          · refine prependOk_ne_panicked _ _ (ih brF r ?_) hcon
            obtain ⟨k2, hk2⟩ := docArrGo_ok_rest (s.length + 1) ml br [] s ds brF r h
            intro b hbm
            rw [hk2] at hbm
            exact hb b (List.mem_of_mem_drop hbm)
          · exact RRes.noConfusion hcon
          · exact absurd h (docArrGo_no_panic (s.length + 1) ml br [] s hb)
          · exact RRes.noConfusion hcon
        | i64ArrF =>
          rcases h : i64ArrGo (s.length + 1) ml br [] s with ⟨vs, brF, r⟩ | ⟨e, r⟩ | - | - <;>
            rw [h] at hcon
          · refine prependOk_ne_panicked _ _ (ih brF r ?_) hcon
            obtain ⟨k2, hk2⟩ := i64ArrGo_ok_rest (s.length + 1) ml br [] s vs brF r h
            intro b hbm
            rw [hk2] at hbm
            exact hb b (List.mem_of_mem_drop hbm)
          · exact RRes.noConfusion hcon
          · exact absurd h (i64ArrGo_no_panic (s.length + 1) ml br [] s)
          · exact RRes.noConfusion hcon

lemma ReadRequest_no_fuelOut (s : List Nat) : ReadRequest s ≠ .fuelOut := by
  intro hcon
  rw [ReadRequest] at hcon
  split_ifs at hcon
  rcases hks : schema (parseHeader s).opcode with _ | ks <;> simp only [hks] at hcon
  · exact DecRes.noConfusion hcon
  · rcases h : decodeFields (parseHeader s).messageLength ks 16 (s.drop 16)
      with ⟨b, n, r⟩ | ⟨e, r⟩ | - | - <;> simp only [h] at hcon
    all_goals first
      | exact DecRes.noConfusion hcon
      | exact absurd h (decodeFields_no_fuelOut _ ks 16 (s.drop 16))

lemma ReadRequest_no_panic (s : List Nat) (hb : ∀ b ∈ s, b < 128) :
    ReadRequest s ≠ .panicked := by
  intro hcon
  rw [ReadRequest] at hcon
  split_ifs at hcon
  rcases hks : schema (parseHeader s).opcode with _ | ks <;> simp only [hks] at hcon
  · exact DecRes.noConfusion hcon
  · rcases h : decodeFields (parseHeader s).messageLength ks 16 (s.drop 16)
      with ⟨b, n, r⟩ | ⟨e, r⟩ | - | - <;> simp only [h] at hcon
    all_goals first
      | exact DecRes.noConfusion hcon
      | exact absurd h (decodeFields_no_panic _ ks 16 (s.drop 16)
          (fun b hbm => hb b (List.mem_of_mem_drop hbm)))

lemma relayLoop_zero (lr : Bool) (cIn bIn : List Nat) (cw : List Bool) :
    relayLoop lr 0 cIn bIn cw = [] := rfl

lemma relayLoop_succ (lr : Bool) (fuel : Nat) (cIn bIn : List Nat) (cw : List Bool) :
    relayLoop lr (fuel + 1) cIn bIn cw = (match ReadRequest cIn with
      | .panicked => [.closeClient, .closeBackend, .procPanic]
      | .fuelOut => []
      | .err e _ => (if e = .eof then [] else [.logError]) ++ [.closeClient, .closeBackend]
      | .ok m cRest =>
        .logFrame (opString m.header.opcode) ::
        .sendBackend (WriteRequest m) ::
        match ReadRequest bIn with
        | .panicked => [.closeClient, .closeBackend, .procPanic]
        | .fuelOut => []
        | .err e _ => (if e = .eof then [] else [.logError]) ++ [.closeClient, .closeBackend]
        | .ok rm bRest =>
          (if lr then [Ev.logFrame (opString rm.header.opcode)] else []) ++
          Ev.sendClient (WriteRequest rm) :: relayLoop lr fuel cRest bRest cw.tail) := rfl

lemma relayLoop_err (lr : Bool) (fuel : Nat) (cIn bIn : List Nat) (cw : List Bool)
    (e : GoErr) (r : List Nat) (h : ReadRequest cIn = .err e r) :
    relayLoop lr (fuel + 1) cIn bIn cw
      = (if e = .eof then [] else [.logError]) ++ [.closeClient, .closeBackend] := by
  rw [relayLoop_succ, h]

lemma relayLoop_panic (lr : Bool) (fuel : Nat) (cIn bIn : List Nat) (cw : List Bool)
    (h : ReadRequest cIn = .panicked) :
    relayLoop lr (fuel + 1) cIn bIn cw = [.closeClient, .closeBackend, .procPanic] := by
  rw [relayLoop_succ, h]

lemma relayLoop_ok_ok (lr : Bool) (fuel : Nat) (cIn bIn : List Nat) (cw : List Bool)
    (m : Message) (cRest : List Nat) (rm : Message) (bRest : List Nat)
    (h1 : ReadRequest cIn = .ok m cRest) (h2 : ReadRequest bIn = .ok rm bRest) :
    relayLoop lr (fuel + 1) cIn bIn cw
      = .logFrame (opString m.header.opcode) ::
        .sendBackend (WriteRequest m) ::
        ((if lr then [Ev.logFrame (opString rm.header.opcode)] else []) ++
         Ev.sendClient (WriteRequest rm) :: relayLoop lr fuel cRest bRest cw.tail) := by
  rw [relayLoop_succ, h1, h2]

lemma relayLoop_ok_err (lr : Bool) (fuel : Nat) (cIn bIn : List Nat) (cw : List Bool)
    (m : Message) (cRest : List Nat) (e : GoErr) (r : List Nat)
    (h1 : ReadRequest cIn = .ok m cRest) (h2 : ReadRequest bIn = .err e r) :
    relayLoop lr (fuel + 1) cIn bIn cw
      = .logFrame (opString m.header.opcode) ::
        .sendBackend (WriteRequest m) ::
        ((if e = .eof then [] else [.logError]) ++ [.closeClient, .closeBackend]) := by
  rw [relayLoop_succ, h1, h2]

lemma relayLoop_ok_panic (lr : Bool) (fuel : Nat) (cIn bIn : List Nat) (cw : List Bool)
    (m : Message) (cRest : List Nat)
    (h1 : ReadRequest cIn = .ok m cRest) (h2 : ReadRequest bIn = .panicked) :
    relayLoop lr (fuel + 1) cIn bIn cw
      = .logFrame (opString m.header.opcode) ::
        .sendBackend (WriteRequest m) ::
        [.closeClient, .closeBackend, .procPanic] := by
  rw [relayLoop_succ, h1, h2]

lemma relayLoop_cw (lr : Bool) :
    ∀ (fuel : Nat) (cIn bIn : List Nat) (cw1 cw2 : List Bool),
    relayLoop lr fuel cIn bIn cw1 = relayLoop lr fuel cIn bIn cw2 := by
  intro fuel
  induction fuel with
  | zero => intro cIn bIn cw1 cw2; rfl
  | succ f ih =>
    intro cIn bIn cw1 cw2
    rcases h1 : ReadRequest cIn with ⟨m, cRest⟩ | ⟨e, r⟩ | - | -
    · rcases h2 : ReadRequest bIn with ⟨rm, bRest⟩ | ⟨e2, r2⟩ | - | -
      · rw [relayLoop_ok_ok lr f cIn bIn cw1 m cRest rm bRest h1 h2,
          relayLoop_ok_ok lr f cIn bIn cw2 m cRest rm bRest h1 h2,
          ih cRest bRest cw1.tail cw2.tail]
      · rw [relayLoop_ok_err lr f cIn bIn cw1 m cRest e2 r2 h1 h2,
          relayLoop_ok_err lr f cIn bIn cw2 m cRest e2 r2 h1 h2]
      · rw [relayLoop_ok_panic lr f cIn bIn cw1 m cRest h1 h2,
          relayLoop_ok_panic lr f cIn bIn cw2 m cRest h1 h2]
      · exact absurd h2 (ReadRequest_no_fuelOut bIn)
    · rw [relayLoop_err lr f cIn bIn cw1 e r h1, relayLoop_err lr f cIn bIn cw2 e r h1]
    · rw [relayLoop_panic lr f cIn bIn cw1 h1, relayLoop_panic lr f cIn bIn cw2 h1]
    · exact absurd h1 (ReadRequest_no_fuelOut cIn)

lemma ReadRequest_eq (h : MsgHeader) (body : List Nat) (ks : List FieldKind)
    (h1 : -(2 ^ 31) ≤ h.messageLength ∧ h.messageLength < 2 ^ 31)
    (h2 : -(2 ^ 31) ≤ h.requestID ∧ h.requestID < 2 ^ 31)
    (h3 : -(2 ^ 31) ≤ h.responseTo ∧ h.responseTo < 2 ^ 31)
    (h4 : -(2 ^ 31) ≤ h.opcode ∧ h.opcode < 2 ^ 31)
    (hks : schema h.opcode = some ks) :
    ReadRequest (headerBytes h ++ body)
      = (match decodeFields h.messageLength ks 16 body with
        | .ok b _ r => .ok ⟨h, b⟩ r
        | .err e r => .err e r
        | .panicked => .panicked
        | .fuelOut => .fuelOut) := by
  have hlen : (headerBytes h ++ body).length = 16 + body.length := by
    simp [headerBytes_length]
  rw [ReadRequest, if_neg (by rw [hlen]; omega), if_neg (by rw [hlen]; omega),
    parseHeader_enc h body h1 h2 h3 h4, hks,
    drop_of_append _ _ _ (headerBytes_length h)]

lemma readRequest_unknown (s : List Nat) (h16 : 16 ≤ s.length)
    (hks : schema (parseHeader s).opcode = none) :
    ReadRequest s = .err .opcodeUnknown (s.drop 16) := by
  rw [ReadRequest, if_neg (by omega), if_neg (by omega), hks]

lemma schema_none_iff (op : Int) :
    schema op = none ↔ op ∉ ([1, 1000, 2001, 2002, 2004, 2005, 2006, 2007] : List Int) := by
  rw [schema]
  split_ifs with h1 h2 h3 h4 h5 h6 h7 h8 <;> simp_all

lemma dfStep_doc_err (ml : Int) (ks : List FieldKind) (br : Nat) (s : List Nat)
    (hne : ¬(br : Int) = ml) (hle : ¬ml < (br : Int)) (e : GoErr) (r : List Nat)
    (h : readDoc s = .err e r) :
    decodeFields ml (.docF :: ks) br s = .err e r := by
  rw [decodeFields_cons, if_neg hne, if_neg hle, h]

lemma readDoc_nil : readDoc [] = .err .eof [] := rfl

lemma decodeFields_over (ml : Int) (k : FieldKind) (ks : List FieldKind) (br : Nat)
    (s : List Nat) (hover : ml < (br : Int)) :
    decodeFields ml (k :: ks) br s = .err .wrongLen s := by
  rw [decodeFields_cons, if_neg (by omega), if_pos hover]

lemma decodeFields_stop (ml : Int) (k : FieldKind) (ks : List FieldKind) (br : Nat)
    (s : List Nat) (hstop : (br : Int) = ml) :
    decodeFields ml (k :: ks) br s = .ok ((k :: ks).map zeroVal) br s := by
  rw [decodeFields_cons, if_pos hstop]

lemma natCast_int32_range (x : Nat) (h : x < 2 ^ 31) :
    -(2 ^ 31) ≤ (x : Int) ∧ (x : Int) < 2 ^ 31 := by
  norm_num at h ⊢
  omega

lemma query_fields_walk (ml : Int) (f a b : Int) (nm rest : List Nat)
    (hf : -(2 ^ 31) ≤ f ∧ f < 2 ^ 31) (ha : -(2 ^ 31) ≤ a ∧ a < 2 ^ 31)
    (hb : -(2 ^ 31) ≤ b ∧ b < 2 ^ 31) (hnm : 0 ∉ nm)
    (hml : ((29 + nm.length : Nat) : Int) ≤ ml) :
    decodeFields ml [.i32F, .strF, .i32F, .i32F, .docF, .docF] 16
      (w32 f ++ (nm ++ (0 :: (w32 a ++ (w32 b ++ rest)))))
      = prependOk (.i32V f) (prependOk (.strV nm) (prependOk (.i32V a) (prependOk (.i32V b)
          (decodeFields ml [.docF, .docF] (29 + nm.length) rest)))) := by
  push_cast at hml
  rw [dfStep_i32 ml _ 16 _ (by omega) (by omega) f 4 _ (readI32_w32 f hf.1 hf.2 _)]
  rw [dfStep_str ml _ (16 + 4) _ (by push_cast; omega) (by push_cast; omega) nm
    (nm.length + 1) _ (readCString_enc nm _ hnm)]
  rw [dfStep_i32 ml _ (16 + 4 + (nm.length + 1)) _ (by push_cast; omega)
    (by push_cast; omega) a 4 _ (readI32_w32 a ha.1 ha.2 _)]
  rw [dfStep_i32 ml _ (16 + 4 + (nm.length + 1) + 4) _ (by push_cast; omega)
    (by push_cast; omega) b 4 _ (readI32_w32 b hb.1 hb.2 _)]
  have he : 16 + 4 + (nm.length + 1) + 4 + 4 = 29 + nm.length := by omega
  rw [he]

lemma query_short (rid rto f a b : Int) (nm t : List Nat)
    (hrid : -(2 ^ 31) ≤ rid ∧ rid < 2 ^ 31) (hrto : -(2 ^ 31) ≤ rto ∧ rto < 2 ^ 31)
    (hf : -(2 ^ 31) ≤ f ∧ f < 2 ^ 31) (ha : -(2 ^ 31) ≤ a ∧ a < 2 ^ 31)
    (hb : -(2 ^ 31) ≤ b ∧ b < 2 ^ 31) (hnm : 0 ∉ nm)
    (hL : 29 + nm.length < 2 ^ 31) :
    ReadRequest (headerBytes ⟨((29 + nm.length : Nat) : Int), rid, rto, 2004⟩
      ++ (w32 f ++ (nm ++ (0 :: (w32 a ++ (w32 b ++ t))))))
      = .ok ⟨⟨((29 + nm.length : Nat) : Int), rid, rto, 2004⟩,
        [.i32V f, .strV nm, .i32V a, .i32V b, .docV [], .docV []]⟩ t := by
  rw [ReadRequest_eq ⟨((29 + nm.length : Nat) : Int), rid, rto, 2004⟩ _
    [.i32F, .strF, .i32F, .i32F, .docF, .docF]
    (natCast_int32_range _ hL) hrid hrto (by norm_num) (by norm_num [schema])]
  rw [query_fields_walk _ f a b nm t hf ha hb hnm le_rfl]
  rw [decodeFields_stop _ _ _ _ _ rfl]
  rfl

lemma query_four_long_eof (rid rto f a b : Int) (nm : List Nat)
    (hrid : -(2 ^ 31) ≤ rid ∧ rid < 2 ^ 31) (hrto : -(2 ^ 31) ≤ rto ∧ rto < 2 ^ 31)
    (hf : -(2 ^ 31) ≤ f ∧ f < 2 ^ 31) (ha : -(2 ^ 31) ≤ a ∧ a < 2 ^ 31)
    (hb : -(2 ^ 31) ≤ b ∧ b < 2 ^ 31) (hnm : 0 ∉ nm)
    (hL : 33 + nm.length < 2 ^ 31) :
    ReadRequest (headerBytes ⟨((33 + nm.length : Nat) : Int), rid, rto, 2004⟩
      ++ (w32 f ++ (nm ++ (0 :: (w32 a ++ (w32 b ++ []))))))
      = .err .eof [] := by
  rw [ReadRequest_eq ⟨((33 + nm.length : Nat) : Int), rid, rto, 2004⟩ _
    [.i32F, .strF, .i32F, .i32F, .docF, .docF]
    (natCast_int32_range _ hL) hrid hrto (by norm_num) (by norm_num [schema])]
  rw [query_fields_walk _ f a b nm [] hf ha hb hnm (by push_cast; omega)]
  rw [dfStep_doc_err _ _ _ _ (by push_cast; omega) (by push_cast; omega) .eof []
    readDoc_nil]
  rfl

lemma query_four_long_wrongLen (rid rto f a b : Int) (nm d t2 : List Nat)
    (hrid : -(2 ^ 31) ≤ rid ∧ rid < 2 ^ 31) (hrto : -(2 ^ 31) ≤ rto ∧ rto < 2 ^ 31)
    (hf : -(2 ^ 31) ≤ f ∧ f < 2 ^ 31) (ha : -(2 ^ 31) ≤ a ∧ a < 2 ^ 31)
    (hb : -(2 ^ 31) ≤ b ∧ b < 2 ^ 31) (hnm : 0 ∉ nm)
    (hL : 33 + nm.length < 2 ^ 31) (hd : d.length + 5 < 2 ^ 31) :
    ReadRequest (headerBytes ⟨((33 + nm.length : Nat) : Int), rid, rto, 2004⟩
      ++ (w32 f ++ (nm ++ (0 :: (w32 a ++ (w32 b ++ (marshalDoc d ++ t2)))))))
      = .err .wrongLen t2 := by
  rw [ReadRequest_eq ⟨((33 + nm.length : Nat) : Int), rid, rto, 2004⟩ _
    [.i32F, .strF, .i32F, .i32F, .docF, .docF]
    (natCast_int32_range _ hL) hrid hrto (by norm_num) (by norm_num [schema])]
  rw [query_fields_walk _ f a b nm (marshalDoc d ++ t2) hf ha hb hnm (by push_cast; omega)]
  rw [dfStep_doc _ _ _ _ (by push_cast; omega) (by push_cast; omega) d (d.length + 5) _
    (readDoc_marshal d t2 hd)]
  rw [decodeFields_over _ _ _ _ _ (by push_cast; omega)]
  rfl

lemma killcursors_decode (rid rto z k : Int) (ids : List Int) (t : List Nat)
    (hrid : -(2 ^ 31) ≤ rid ∧ rid < 2 ^ 31) (hrto : -(2 ^ 31) ≤ rto ∧ rto < 2 ^ 31)
    (hz : -(2 ^ 31) ≤ z ∧ z < 2 ^ 31) (hk : -(2 ^ 31) ≤ k ∧ k < 2 ^ 31)
    (hids : ∀ v ∈ ids, -(2 ^ 63) ≤ v ∧ v < 2 ^ 63)
    (hL : 24 + 8 * ids.length < 2 ^ 31) :
    ReadRequest (headerBytes ⟨((24 + 8 * ids.length : Nat) : Int), rid, rto, 2007⟩
      ++ (w32 z ++ (w32 k ++ (ids.flatMap w64 ++ t))))
      = .ok ⟨⟨((24 + 8 * ids.length : Nat) : Int), rid, rto, 2007⟩,
          [.i32V z, .i32V k, .i64ArrV ids]⟩ t := by
  rw [ReadRequest_eq ⟨((24 + 8 * ids.length : Nat) : Int), rid, rto, 2007⟩ _
    [.i32F, .i32F, .i64ArrF]
    (natCast_int32_range _ hL) hrid hrto (by norm_num) (by norm_num [schema])]
  rw [dfStep_i32 _ _ 16 _ (by push_cast; omega) (by push_cast; omega) z 4 _
    (readI32_w32 z hz.1 hz.2 _)]
  rw [dfStep_i32 _ _ (16 + 4) _ (by push_cast; omega) (by push_cast; omega) k 4 _
    (readI32_w32 k hk.1 hk.2 _)]
  by_cases hids0 : ids = []
  · subst hids0
    simp only [List.flatMap_nil, List.nil_append]
    rw [decodeFields_stop _ _ _ _ _ (by norm_num)]
    rfl
  · have hgo := i64ArrGo_enc ((24 + 8 * ids.length : Nat) : Int) ids [] (16 + 4 + 4)
      ((ids.flatMap w64 ++ t).length + 1) t hids0 hids
      (by rw [flatMap_w64_length]; push_cast; omega) (Nat.lt_succ_self _)
    have hlen1 : 1 ≤ ids.length := List.length_pos.mpr hids0
    rw [dfStep_i64Arr _ _ _ _ (by push_cast; omega) (by push_cast; omega) ids
      (16 + 4 + 4 + (ids.flatMap w64).length) t (by simpa using hgo)]
    rfl

lemma insert_two_docs (rid rto fl : Int) (nm d1 d2 t : List Nat)
    (hrid : -(2 ^ 31) ≤ rid ∧ rid < 2 ^ 31) (hrto : -(2 ^ 31) ≤ rto ∧ rto < 2 ^ 31)
    (hfl : -(2 ^ 31) ≤ fl ∧ fl < 2 ^ 31) (hnm : 0 ∉ nm)
    (hd1 : d1.length + 5 < 2 ^ 31) (hd2 : d2.length + 5 < 2 ^ 31)
    (hL : 31 + nm.length + d1.length + d2.length < 2 ^ 31) :
    ReadRequest (headerBytes
        ⟨((31 + nm.length + d1.length + d2.length : Nat) : Int), rid, rto, 2002⟩
      ++ (w32 fl ++ (nm ++ (0 :: (marshalDoc d1 ++ (marshalDoc d2 ++ t))))))
      = .ok ⟨⟨((31 + nm.length + d1.length + d2.length : Nat) : Int), rid, rto, 2002⟩,
          [.i32V fl, .strV nm, .docArrV [d1, d2]]⟩ t := by
  rw [ReadRequest_eq
    ⟨((31 + nm.length + d1.length + d2.length : Nat) : Int), rid, rto, 2002⟩ _
    [.i32F, .strF, .docArrF]
    (natCast_int32_range _ hL) hrid hrto (by norm_num) (by norm_num [schema])]
  rw [dfStep_i32 _ _ 16 _ (by push_cast; omega) (by push_cast; omega) fl 4 _
    (readI32_w32 fl hfl.1 hfl.2 _)]
  rw [dfStep_str _ _ (16 + 4) _ (by push_cast; omega) (by push_cast; omega) nm
    (nm.length + 1) _ (readCString_enc nm _ hnm)]
  have hgo := docArrGo_enc ((31 + nm.length + d1.length + d2.length : Nat) : Int)
    [d1, d2] [] (16 + 4 + (nm.length + 1))
    (((([d1, d2] : List (List Nat)).flatMap marshalDoc) ++ t).length + 1) t
    (by simp)
    (by intro d hd
        simp only [List.mem_cons, List.not_mem_nil, or_false] at hd
        rcases hd with hd | hd
        · subst hd; exact hd1
        · subst hd; exact hd2)
    (by simp only [List.flatMap_cons, List.flatMap_nil, List.append_nil,
          List.length_append, marshalDoc_length]
        push_cast
        omega)
    (Nat.lt_succ_self _)
  rw [dfStep_docArr _ _ _ _ (by push_cast; omega) (by push_cast; omega) [d1, d2]
    (16 + 4 + (nm.length + 1) + (([d1, d2] : List (List Nat)).flatMap marshalDoc).length) t
    (by simpa [List.flatMap_cons, List.append_assoc] using hgo)]
  rfl

lemma validMsg_ml (m : Message) (hv : validMsg m = true) :
    m.header.messageLength = 16 + (bodySize m : Int) := by
  rw [validMsg] at hv
  rcases hks : schema m.header.opcode with _ | ks <;> rw [hks] at hv
  · exact absurd hv (by simp)
  · simp only [Bool.and_eq_true, decide_eq_true_eq] at hv
    exact hv.1.1.1.2

/-- Claim C1: for every valid in-memory message (registered opcode, body
fitting the schema, correct totalLength, documents nonempty except for a
trailing zero-value suffix — the encoder silently skips empty documents, as
the spec's own skip-on-write sentence records), decoding the encoder's
output returns the same message and leaves trailing bytes untouched; and
every well-formed captured frame (a byte string the encoder can produce for
a valid message) round-trips byte-exactly through decode then encode. -/
theorem c1_round_trip :
    (∀ (m : Message) (rest : List Nat), validMsg m = true →
      ReadRequest (WriteRequest m ++ rest) = .ok m rest) ∧
    (∀ (bytes : List Nat) (m : Message), validMsg m = true → bytes = WriteRequest m →
      ∃ m2, ReadRequest bytes = .ok m2 [] ∧ WriteRequest m2 = bytes) := by
  constructor
  · intro m rest hv
    exact encode_decode m rest hv
  · intro bytes m hv hbytes
    refine ⟨m, ?_, hbytes.symm⟩
    rw [hbytes]
    have h := encode_decode m [] hv
    simpa using h

/-- Witness for C1 at a concrete Query message with a nonempty query
document, an omitted (empty) returnFieldsSelector, and two trailing bytes. -/
theorem c1_round_trip_witness :
    validMsg ⟨⟨39, 3, 4, 2004⟩,
      [.i32V 1, .strV [100, 98], .i32V 0, .i32V 2, .docV [9, 8, 7], .docV []]⟩ = true ∧
    ReadRequest (WriteRequest ⟨⟨39, 3, 4, 2004⟩,
      [.i32V 1, .strV [100, 98], .i32V 0, .i32V 2, .docV [9, 8, 7], .docV []]⟩ ++ [7, 7])
      = .ok ⟨⟨39, 3, 4, 2004⟩,
          [.i32V 1, .strV [100, 98], .i32V 0, .i32V 2, .docV [9, 8, 7], .docV []]⟩ [7, 7] :=
  ⟨by decide, c1_round_trip.1 ⟨⟨39, 3, 4, 2004⟩,
    [.i32V 1, .strV [100, 98], .i32V 0, .i32V 2, .docV [9, 8, 7], .docV []]⟩ [7, 7]
    (by decide)⟩

/-- Counterexample to C2 as stated: a Query frame whose declared length is
4 bytes greater than the bytes its fields occupy, followed by end of
stream, fails with io.EOF (readDoc's 4-byte peek gets nothing), not with
the WrongLength error. -/
theorem c2_counterexample :
    ReadRequest (headerBytes ⟨34, 5, 6, 2004⟩
        ++ (w32 7 ++ ([97] ++ (0 :: (w32 8 ++ (w32 9 ++ []))))))
      = .err .eof [] ∧ GoErr.eof ≠ GoErr.wrongLen := by
  constructor
  · decide
  · decide

/-- Claim C2 (amended): a Query frame whose declared total length ends
exactly after numberToReturn decodes successfully with query and
returnFieldsSelector left at their zero values; a Query frame declared 4
bytes too long fails — with io.EOF when the stream ends at the frame's last
byte, and with WrongLength when the following bytes parse as a document
(pushing the byte counter past the declared length); and in general,
whenever the byte counter exceeds the declared total length at a field
boundary with fields remaining, decode fails with WrongLength. -/
theorem c2_short_circuit :
    (∀ (rid rto f a b : Int) (nm t : List Nat),
      -(2 ^ 31) ≤ rid ∧ rid < 2 ^ 31 → -(2 ^ 31) ≤ rto ∧ rto < 2 ^ 31 →
      -(2 ^ 31) ≤ f ∧ f < 2 ^ 31 → -(2 ^ 31) ≤ a ∧ a < 2 ^ 31 →
      -(2 ^ 31) ≤ b ∧ b < 2 ^ 31 → 0 ∉ nm → 29 + nm.length < 2 ^ 31 →
      ReadRequest (headerBytes ⟨((29 + nm.length : Nat) : Int), rid, rto, 2004⟩
        ++ (w32 f ++ (nm ++ (0 :: (w32 a ++ (w32 b ++ t))))))
        = .ok ⟨⟨((29 + nm.length : Nat) : Int), rid, rto, 2004⟩,
          [.i32V f, .strV nm, .i32V a, .i32V b, .docV [], .docV []]⟩ t) ∧
    (∀ (rid rto f a b : Int) (nm : List Nat),
      -(2 ^ 31) ≤ rid ∧ rid < 2 ^ 31 → -(2 ^ 31) ≤ rto ∧ rto < 2 ^ 31 →
      -(2 ^ 31) ≤ f ∧ f < 2 ^ 31 → -(2 ^ 31) ≤ a ∧ a < 2 ^ 31 →
      -(2 ^ 31) ≤ b ∧ b < 2 ^ 31 → 0 ∉ nm → 33 + nm.length < 2 ^ 31 →
      ReadRequest (headerBytes ⟨((33 + nm.length : Nat) : Int), rid, rto, 2004⟩
        ++ (w32 f ++ (nm ++ (0 :: (w32 a ++ (w32 b ++ []))))))
        = .err .eof []) ∧
    (∀ (rid rto f a b : Int) (nm d t2 : List Nat),
      -(2 ^ 31) ≤ rid ∧ rid < 2 ^ 31 → -(2 ^ 31) ≤ rto ∧ rto < 2 ^ 31 →
      -(2 ^ 31) ≤ f ∧ f < 2 ^ 31 → -(2 ^ 31) ≤ a ∧ a < 2 ^ 31 →
      -(2 ^ 31) ≤ b ∧ b < 2 ^ 31 → 0 ∉ nm → 33 + nm.length < 2 ^ 31 →
      d.length + 5 < 2 ^ 31 →
      ReadRequest (headerBytes ⟨((33 + nm.length : Nat) : Int), rid, rto, 2004⟩
        ++ (w32 f ++ (nm ++ (0 :: (w32 a ++ (w32 b ++ (marshalDoc d ++ t2)))))))
        = .err .wrongLen t2) ∧
    (∀ (ml : Int) (k : FieldKind) (ks : List FieldKind) (br : Nat) (s : List Nat),
      ml < (br : Int) → decodeFields ml (k :: ks) br s = .err .wrongLen s) := by
  refine ⟨?_, ?_, ?_, ?_⟩
  · intro rid rto f a b nm t hrid hrto hf ha hb hnm hL
    exact query_short rid rto f a b nm t hrid hrto hf ha hb hnm hL
  · intro rid rto f a b nm hrid hrto hf ha hb hnm hL
    exact query_four_long_eof rid rto f a b nm hrid hrto hf ha hb hnm hL
  · intro rid rto f a b nm d t2 hrid hrto hf ha hb hnm hL hd
    exact query_four_long_wrongLen rid rto f a b nm d t2 hrid hrto hf ha hb hnm hL hd
  · intro ml k ks br s hover
    exact decodeFields_over ml k ks br s hover

/-- Witness for C2 at concrete frames: a short-circuiting Query ending
after numberToReturn, its 4-bytes-too-long truncated variant, the same
variant followed by a parseable document, and an over-count field walk. -/
theorem c2_short_circuit_witness :
    ReadRequest (headerBytes ⟨30, 5, 6, 2004⟩
        ++ (w32 7 ++ ([97] ++ (0 :: (w32 8 ++ (w32 9 ++ [42, 42]))))))
      = .ok ⟨⟨30, 5, 6, 2004⟩,
        [.i32V 7, .strV [97], .i32V 8, .i32V 9, .docV [], .docV []]⟩ [42, 42] ∧
    ReadRequest (headerBytes ⟨34, 5, 6, 2004⟩
        ++ (w32 7 ++ ([97] ++ (0 :: (w32 8 ++ (w32 9 ++ []))))))
      = .err .eof [] ∧
    ReadRequest (headerBytes ⟨34, 5, 6, 2004⟩
        ++ (w32 7 ++ ([97] ++ (0 :: (w32 8 ++ (w32 9 ++ (marshalDoc [1, 2, 3] ++ [])))))))
      = .err .wrongLen [] ∧
    decodeFields 5 (.i32F :: []) 20 [9] = .err .wrongLen [9] :=
  ⟨c2_short_circuit.1 5 6 7 8 9 [97] [42, 42] (by decide) (by decide) (by decide)
    (by decide) (by decide) (by decide) (by decide),
   c2_short_circuit.2.1 5 6 7 8 9 [97] (by decide) (by decide) (by decide)
    (by decide) (by decide) (by decide) (by decide),
   c2_short_circuit.2.2.1 5 6 7 8 9 [97] [1, 2, 3] [] (by decide) (by decide) (by decide)
    (by decide) (by decide) (by decide) (by decide) (by decide),
   c2_short_circuit.2.2.2 5 .i32F [] 20 [9] (by decide)⟩

/-- Claim C3: length-terminated repeated fields are decoded purely from the
remaining declared total length — a KillCursors frame decodes as many
cursor ids as the remaining length implies for every value of the
NumberOfCursorIDs field, and an Insert frame whose total length allows
exactly two embedded documents decodes to a two-element document list. -/
theorem c3_length_driven_arrays :
    (∀ (rid rto z k : Int) (ids : List Int) (t : List Nat),
      -(2 ^ 31) ≤ rid ∧ rid < 2 ^ 31 → -(2 ^ 31) ≤ rto ∧ rto < 2 ^ 31 →
      -(2 ^ 31) ≤ z ∧ z < 2 ^ 31 → -(2 ^ 31) ≤ k ∧ k < 2 ^ 31 →
      (∀ v ∈ ids, -(2 ^ 63) ≤ v ∧ v < 2 ^ 63) → 24 + 8 * ids.length < 2 ^ 31 →
      ReadRequest (headerBytes ⟨((24 + 8 * ids.length : Nat) : Int), rid, rto, 2007⟩
        ++ (w32 z ++ (w32 k ++ (ids.flatMap w64 ++ t))))
        = .ok ⟨⟨((24 + 8 * ids.length : Nat) : Int), rid, rto, 2007⟩,
            [.i32V z, .i32V k, .i64ArrV ids]⟩ t) ∧
    (∀ (rid rto fl : Int) (nm d1 d2 t : List Nat),
      -(2 ^ 31) ≤ rid ∧ rid < 2 ^ 31 → -(2 ^ 31) ≤ rto ∧ rto < 2 ^ 31 →
      -(2 ^ 31) ≤ fl ∧ fl < 2 ^ 31 → 0 ∉ nm →
      d1.length + 5 < 2 ^ 31 → d2.length + 5 < 2 ^ 31 →
      31 + nm.length + d1.length + d2.length < 2 ^ 31 →
      ReadRequest (headerBytes
          ⟨((31 + nm.length + d1.length + d2.length : Nat) : Int), rid, rto, 2002⟩
        ++ (w32 fl ++ (nm ++ (0 :: (marshalDoc d1 ++ (marshalDoc d2 ++ t))))))
        = .ok ⟨⟨((31 + nm.length + d1.length + d2.length : Nat) : Int), rid, rto, 2002⟩,
            [.i32V fl, .strV nm, .docArrV [d1, d2]]⟩ t
        ∧ ([d1, d2] : List (List Nat)).length = 2) := by
  constructor
  · intro rid rto z k ids t hrid hrto hz hk hids hL
    exact killcursors_decode rid rto z k ids t hrid hrto hz hk hids hL
  · intro rid rto fl nm d1 d2 t hrid hrto hfl hnm hd1 hd2 hL
    exact ⟨insert_two_docs rid rto fl nm d1 d2 t hrid hrto hfl hnm hd1 hd2 hL, rfl⟩

/-- Witness for C3 at concrete frames: a KillCursors frame declaring a
count of 999 but carrying two cursor ids, and an Insert frame carrying an
empty and a three-byte document. -/
theorem c3_length_driven_arrays_witness :
    ReadRequest (headerBytes ⟨40, 0, 0, 2007⟩
        ++ (w32 0 ++ (w32 999 ++ (([11, -2] : List Int).flatMap w64 ++ []))))
      = .ok ⟨⟨40, 0, 0, 2007⟩, [.i32V 0, .i32V 999, .i64ArrV [11, -2]]⟩ [] ∧
    ReadRequest (headerBytes ⟨35, 0, 0, 2002⟩
        ++ (w32 1 ++ ([97] ++ (0 :: (marshalDoc [] ++ (marshalDoc [1, 2, 3] ++ [9]))))))
      = .ok ⟨⟨35, 0, 0, 2002⟩, [.i32V 1, .strV [97], .docArrV [[], [1, 2, 3]]]⟩ [9] :=
  ⟨c3_length_driven_arrays.1 0 0 0 999 [11, -2] [] (by decide) (by decide) (by decide)
    (by decide) (by decide) (by decide),
   (c3_length_driven_arrays.2 0 0 1 [97] [] [1, 2, 3] [9] (by decide) (by decide)
    (by decide) (by decide) (by decide) (by decide) (by decide)).1⟩

/-- Claim C4: the opcode registry is exactly Reply(1), Message(1000),
Update(2001), Insert(2002), Query(2004), GetMore(2005), Delete(2006),
KillCursors(2007); in particular 2003 and 9999 are unregistered; and a
frame whose header opcode is unregistered fails with the UnknownOpcode
error with exactly the 16 header bytes consumed, the rest of the stream
untouched. -/
theorem c4_unknown_opcode :
    (∀ op : Int, schema op = none ↔
      op ∉ ([1, 1000, 2001, 2002, 2004, 2005, 2006, 2007] : List Int)) ∧
    schema 2003 = none ∧ schema 9999 = none ∧
    (∀ s : List Nat, 16 ≤ s.length → schema (parseHeader s).opcode = none →
      ReadRequest s = .err .opcodeUnknown (s.drop 16)) := by
  refine ⟨schema_none_iff, by decide, by decide, ?_⟩
  intro s h16 hks
  exact readRequest_unknown s h16 hks

/-- Witness for C4 at a concrete frame with opcode 9999 followed by three
extra bytes, and at a frame with the reserved opcode 2003. -/
theorem c4_unknown_opcode_witness :
    ReadRequest (headerBytes ⟨100, 0, 0, 9999⟩ ++ [1, 2, 3])
      = .err .opcodeUnknown [1, 2, 3] ∧
    ReadRequest (headerBytes ⟨100, 0, 0, 2003⟩ ++ [4, 5])
      = .err .opcodeUnknown [4, 5] ∧
    ((2003 : Int) ∉ ([1, 1000, 2001, 2002, 2004, 2005, 2006, 2007] : List Int)) :=
  ⟨c4_unknown_opcode.2.2.2 (headerBytes ⟨100, 0, 0, 9999⟩ ++ [1, 2, 3])
    (by decide) (by decide),
   c4_unknown_opcode.2.2.2 (headerBytes ⟨100, 0, 0, 2003⟩ ++ [4, 5])
    (by decide) (by decide),
   (c4_unknown_opcode.1 2003).mp (by decide)⟩

/-- Counterexample to C5 as stated: a successful decode can consume more
bytes than the header declares.  This Query frame declares totalLength 38
but its 40 bytes are fully consumed (the final returnFieldsSelector
document overshoots the declared length and the field loop ends without a
further check), and ReadRequest still returns success. -/
theorem c5_counterexample :
    ReadRequest (headerBytes ⟨38, 0, 0, 2004⟩ ++ w32 0 ++ [97, 0] ++ w32 0 ++ w32 0 ++
        marshalDoc [] ++ marshalDoc []) =
      .ok ⟨⟨38, 0, 0, 2004⟩, [.i32V 0, .strV [97], .i32V 0, .i32V 0, .docV [], .docV []]⟩ [] ∧
    (headerBytes ⟨38, 0, 0, 2004⟩ ++ w32 0 ++ [97, 0] ++ w32 0 ++ w32 0 ++
        marshalDoc [] ++ marshalDoc []).length = 40 := by
  constructor
  · decide
  · decide

/-- Claim C5 (amended): the field walk stops at a field boundary exactly
when its running bytesRead counter equals the declared total length, and
for every frame whose declared totalLength is correct — any frame the
encoder emits for a valid message — the walk succeeds with the bytesRead
counter ending exactly at totalLength.  The stream itself, however, is not
consumed exactly: a final-field overshoot lets decode succeed with the
counter past totalLength (see the counterexample), and the fresh bufio
reader the source creates per call can read ahead and discard bytes of a
following frame, so the no-more-than-declared stream-consumption part of
the original claim is false and nothing about following-frame bytes is
asserted here (the remaining stream below is existentially quantified). -/
theorem c5_counter_stops_at_length :
    (∀ (ml : Int) (k : FieldKind) (ks : List FieldKind) (br : Nat) (s : List Nat),
      (br : Int) = ml → decodeFields ml (k :: ks) br s = .ok ((k :: ks).map zeroVal) br s) ∧
    (∀ (m : Message) (t : List Nat), validMsg m = true →
      ∃ (ks : List FieldKind) (r : List Nat), schema m.header.opcode = some ks ∧
        decodeFields m.header.messageLength ks 16 (m.body.flatMap encodeFVal ++ t)
          = .ok m.body (16 + bodySize m) r ∧
        ((16 + bodySize m : Nat) : Int) = m.header.messageLength) := by
  constructor
  · intro ml k ks br s hstop
    exact decodeFields_stop ml k ks br s hstop
  · intro m t hv
    have hml := validMsg_ml m hv
    rw [validMsg] at hv
    rcases hks : schema m.header.opcode with _ | ks <;> rw [hks] at hv
    · exact absurd hv (by simp)
    · simp only [Bool.and_eq_true, decide_eq_true_eq] at hv
      refine ⟨ks, t, rfl, ?_, by rw [hml]; push_cast; ring⟩
      exact decodeFields_enc m.header.messageLength ks m.body 16 t hv.1.1.1.1
        (schema_arraysLast _ _ hks) (by rw [hml, bodySize]; omega)

/-- Witness for C5: the stop-at-equality rule on a concrete walk, and the
counter of a concrete GetMore frame ending exactly at its totalLength 34. -/
theorem c5_counter_stops_at_length_witness :
    decodeFields 16 (.i32F :: []) 16 [5] = .ok [.i32V 0] 16 [5] ∧
    (∃ (ks : List FieldKind) (r : List Nat),
      schema (2005 : Int) = some ks ∧
      decodeFields 34 ks 16
          (([.i32V 0, .strV [99], .i32V 5, .i64V 7] : List FVal).flatMap encodeFVal ++ [88, 99])
        = .ok [.i32V 0, .strV [99], .i32V 5, .i64V 7] 34 r ∧
      ((34 : Nat) : Int) = 34) :=
  ⟨c5_counter_stops_at_length.1 16 .i32F [] 16 [5] (by decide),
   c5_counter_stops_at_length.2 ⟨⟨34, 1, 2, 2005⟩, [.i32V 0, .strV [99], .i32V 5, .i64V 7]⟩
     [88, 99] (by decide)⟩

/-- Counterexample to C6 as stated: WriteRequest writes the stored header
verbatim and never recomputes the length, so a message whose totalLength
field is wrong (here 0) still writes 16 header bytes plus its body — 17
bytes, not 0. -/
theorem c6_counterexample :
    ((WriteRequest ⟨⟨0, 0, 0, 1000⟩, [.strV []]⟩).length : Int)
      ≠ (⟨⟨0, 0, 0, 1000⟩, [.strV []]⟩ : Message).header.messageLength := by
  decide

/-- Claim C6 (amended): the number of bytes WriteRequest emits is always 16
plus the encoded body size; it equals the header's totalLength exactly when
that stored field is correct, which holds for every message this system
forwards (relayed messages keep the header they were decoded with). -/
theorem c6_length_invariant (m : Message)
    (hml : m.header.messageLength = 16 + (bodySize m : Int)) :
    ((WriteRequest m).length : Int) = m.header.messageLength := by
  rw [WriteRequest_length, hml]
  push_cast
  ring

/-- Witness for C6 at a concrete Msg frame. -/
theorem c6_length_invariant_witness :
    ((WriteRequest ⟨⟨21, 0, 0, 1000⟩, [.strV [104, 105, 33, 33]]⟩).length : Int)
      = (⟨⟨21, 0, 0, 1000⟩, [.strV [104, 105, 33, 33]]⟩ : Message).header.messageLength :=
  c6_length_invariant ⟨⟨21, 0, 0, 1000⟩, [.strV [104, 105, 33, 33]]⟩ (by decide)

/-- Claim C7 (code bug): on a backend dial failure the handler never reads
the client (the trace is the same for every client input), but nothing else
the claim promises happens either — defer c.Close() evaluates the Close
method of the nil backend connection interface and panics at the defer
statement itself, before the client-close defer is registered and before
the error check, so no ERROR record is logged, the client socket is never
deliberately closed, and the unrecovered panic kills the whole process
instead of staying local to the connection. -/
theorem c7_dial_failure_panics (lr : Bool) (cIn bIn : List Nat) (cw : List Bool) :
    handleConnection false lr cIn bIn cw = [.procPanic] := rfl

/-- Counterexample to C8 as stated: a truncated frame — a full 16-byte
Query header declaring more bytes, followed by end of stream — makes
ReadRequest fail with io.EOF in the middle of the frame body (a decode
failure that is not an end-of-stream on a new frame), yet the relay loop
ends silently without emitting any ERROR record, because the code only
compares the error against io.EOF. -/
theorem c8_counterexample :
    ReadRequest (headerBytes ⟨24, 0, 0, 2004⟩) = .err .eof [] ∧
    relayLoop false 1 (headerBytes ⟨24, 0, 0, 2004⟩) [] [] =
      [.closeClient, .closeBackend] := by
  constructor
  · decide
  · decide

/-- Claim C8 (amended): the relay loop ends silently whenever ReadRequest
surfaces io.EOF — on a clean close before a new frame, but also at any
mid-frame field boundary whose read got zero bytes — and logs one
ERROR-tagged record before ending for every other decode error, on the
client side and on the backend side alike; in all cases the trace ends with
both sockets closed and no further events. -/
theorem c8_eof_silent_errors_logged :
    (∀ (lr : Bool) (fuel : Nat) (cIn bIn : List Nat) (cw : List Bool) (r : List Nat),
      ReadRequest cIn = .err .eof r →
      relayLoop lr (fuel + 1) cIn bIn cw = [.closeClient, .closeBackend]) ∧
    (∀ (lr : Bool) (fuel : Nat) (cIn bIn : List Nat) (cw : List Bool) (e : GoErr)
      (r : List Nat), ReadRequest cIn = .err e r → e ≠ .eof →
      relayLoop lr (fuel + 1) cIn bIn cw = [.logError, .closeClient, .closeBackend]) ∧
    (∀ (lr : Bool) (fuel : Nat) (cIn bIn : List Nat) (cw : List Bool) (m : Message)
      (cRest r : List Nat), ReadRequest cIn = .ok m cRest →
      ReadRequest bIn = .err .eof r →
      relayLoop lr (fuel + 1) cIn bIn cw
        = [.logFrame (opString m.header.opcode), .sendBackend (WriteRequest m),
           .closeClient, .closeBackend]) ∧
    (∀ (lr : Bool) (fuel : Nat) (cIn bIn : List Nat) (cw : List Bool) (m : Message)
      (cRest : List Nat) (e : GoErr) (r : List Nat), ReadRequest cIn = .ok m cRest →
      ReadRequest bIn = .err e r → e ≠ .eof →
      relayLoop lr (fuel + 1) cIn bIn cw
        = [.logFrame (opString m.header.opcode), .sendBackend (WriteRequest m),
           .logError, .closeClient, .closeBackend]) := by
  refine ⟨?_, ?_, ?_, ?_⟩
  · intro lr fuel cIn bIn cw r h
    rw [relayLoop_err lr fuel cIn bIn cw .eof r h]
    simp
  · intro lr fuel cIn bIn cw e r h hne
    rw [relayLoop_err lr fuel cIn bIn cw e r h, if_neg hne]
    simp
  · intro lr fuel cIn bIn cw m cRest r h1 h2
    rw [relayLoop_ok_err lr fuel cIn bIn cw m cRest .eof r h1 h2]
    simp
  · intro lr fuel cIn bIn cw m cRest e r h1 h2 hne
    rw [relayLoop_ok_err lr fuel cIn bIn cw m cRest e r h1 h2, if_neg hne]
    simp

/-- Witness for C8: a clean close (empty client stream) is silent; an
unknown-opcode frame is logged; a successful request followed by backend
end of stream is silent on the backend side; a successful request followed
by a backend unknown-opcode reply is logged. -/
theorem c8_eof_silent_errors_logged_witness :
    relayLoop false 1 [] [] [] = [.closeClient, .closeBackend] ∧
    relayLoop false 1 (headerBytes ⟨100, 0, 0, 9999⟩ ++ [1, 2, 3]) [] []
      = [.logError, .closeClient, .closeBackend] ∧
    relayLoop false 1 (headerBytes ⟨30, 5, 6, 2004⟩
        ++ (w32 7 ++ ([97] ++ (0 :: (w32 8 ++ (w32 9 ++ [42, 42])))))) [] []
      = [.logFrame "OP_QUERY",
         .sendBackend (WriteRequest ⟨⟨30, 5, 6, 2004⟩,
           [.i32V 7, .strV [97], .i32V 8, .i32V 9, .docV [], .docV []]⟩),
         .closeClient, .closeBackend] ∧
    relayLoop false 1 (headerBytes ⟨30, 5, 6, 2004⟩
        ++ (w32 7 ++ ([97] ++ (0 :: (w32 8 ++ (w32 9 ++ [42, 42]))))))
        (headerBytes ⟨100, 0, 0, 9999⟩ ++ [1, 2, 3]) []
      = [.logFrame "OP_QUERY",
         .sendBackend (WriteRequest ⟨⟨30, 5, 6, 2004⟩,
           [.i32V 7, .strV [97], .i32V 8, .i32V 9, .docV [], .docV []]⟩),
         .logError, .closeClient, .closeBackend] :=
  ⟨c8_eof_silent_errors_logged.1 false 0 [] [] [] [] (by decide),
   c8_eof_silent_errors_logged.2.1 false 0 (headerBytes ⟨100, 0, 0, 9999⟩ ++ [1, 2, 3])
     [] [] .opcodeUnknown [1, 2, 3] (by decide) (by decide),
   c8_eof_silent_errors_logged.2.2.1 false 0 _ [] []
     ⟨⟨30, 5, 6, 2004⟩, [.i32V 7, .strV [97], .i32V 8, .i32V 9, .docV [], .docV []]⟩
     [42, 42] [] (by decide) (by decide),
   c8_eof_silent_errors_logged.2.2.2 false 0 _ (headerBytes ⟨100, 0, 0, 9999⟩ ++ [1, 2, 3])
     [] ⟨⟨30, 5, 6, 2004⟩, [.i32V 7, .strV [97], .i32V 8, .i32V 9, .docV [], .docV []]⟩
     [42, 42] .opcodeUnknown [1, 2, 3] (by decide) (by decide) (by decide)⟩

/-- Counterexample to C9 as stated: ReadRequest is not panic-free.  A Query
frame whose query document's leading 4-byte size field is FF FF FF FF (the
signed value -1) drives readDoc into make([]byte, -1), a runtime panic. -/
theorem c9_counterexample :
    ReadRequest (headerBytes ⟨100, 0, 0, 2004⟩ ++ w32 0 ++ [97, 0] ++ w32 0 ++ w32 0 ++
      [255, 255, 255, 255]) = .panicked := by
  decide

/-- Claim C9 (amended): on every finite input stream ReadRequest terminates
with a message, an error, or a runtime panic (the model's fuel never runs
out, witnessing termination of the array loops), and it panics only when a
document size field is negative: on streams whose bytes all have a clear
top bit — so every 4-byte size field is nonnegative — it never panics. -/
theorem c9_total_no_panic :
    (∀ s : List Nat, (∀ b ∈ s, b < 128) → ReadRequest s ≠ .panicked) ∧
    (∀ s : List Nat, ReadRequest s ≠ .fuelOut) := by
  exact ⟨ReadRequest_no_panic, ReadRequest_no_fuelOut⟩

/-- Witness for C9 on a concrete bounded-byte stream. -/
theorem c9_total_no_panic_witness :
    (∀ b ∈ ([22, 0, 0, 0, 1, 0, 0, 0, 0, 0, 0, 0] : List Nat), b < 128) ∧
    ReadRequest [22, 0, 0, 0, 1, 0, 0, 0, 0, 0, 0, 0] ≠ .panicked :=
  ⟨by decide, c9_total_no_panic.1 [22, 0, 0, 0, 1, 0, 0, 0, 0, 0, 0, 0] (by decide)⟩

/-- Claim C10: after a successful reply decode the relay always forwards
the re-encoded reply to the client — with and without reply logging — and
then proceeds to the next client request; and the whole trace is
independent of the outcomes of the client-side writes, whose error value
the code discards. -/
theorem c10_reply_always_forwarded :
    (∀ (lr : Bool) (fuel : Nat) (cIn bIn : List Nat) (cw : List Bool) (m : Message)
      (cRest : List Nat) (rm : Message) (bRest : List Nat),
      ReadRequest cIn = .ok m cRest → ReadRequest bIn = .ok rm bRest →
      relayLoop lr (fuel + 1) cIn bIn cw
        = .logFrame (opString m.header.opcode) ::
          .sendBackend (WriteRequest m) ::
          ((if lr then [Ev.logFrame (opString rm.header.opcode)] else []) ++
           Ev.sendClient (WriteRequest rm) :: relayLoop lr fuel cRest bRest cw.tail)) ∧
    (∀ (lr : Bool) (fuel : Nat) (cIn bIn : List Nat) (cw1 cw2 : List Bool),
      relayLoop lr fuel cIn bIn cw1 = relayLoop lr fuel cIn bIn cw2) := by
  constructor
  · intro lr fuel cIn bIn cw m cRest rm bRest h1 h2
    exact relayLoop_ok_ok lr fuel cIn bIn cw m cRest rm bRest h1 h2
  · intro lr fuel cIn bIn cw1 cw2
    exact relayLoop_cw lr fuel cIn bIn cw1 cw2

/-- Witness for C10: one full iteration against a header-only Reply frame,
with reply logging off the reply is still forwarded, and the trace is
unchanged when the client write is marked failing. -/
theorem c10_reply_always_forwarded_witness :
    relayLoop false (0 + 1) (headerBytes ⟨30, 5, 6, 2004⟩
        ++ (w32 7 ++ ([97] ++ (0 :: (w32 8 ++ (w32 9 ++ []))))))
        (headerBytes ⟨16, 1, 5, 1⟩) [false]
      = .logFrame "OP_QUERY" ::
        .sendBackend (WriteRequest ⟨⟨30, 5, 6, 2004⟩,
          [.i32V 7, .strV [97], .i32V 8, .i32V 9, .docV [], .docV []]⟩) ::
        (([] : List Ev) ++
         Ev.sendClient (WriteRequest ⟨⟨16, 1, 5, 1⟩,
           [.i32V 0, .i64V 0, .i32V 0, .i32V 0, .docArrV []]⟩) ::
         relayLoop false 0 [] [] [false].tail) ∧
    relayLoop false 1 (headerBytes ⟨24, 0, 0, 2004⟩) [] [true]
      = relayLoop false 1 (headerBytes ⟨24, 0, 0, 2004⟩) [] [false] :=
  ⟨c10_reply_always_forwarded.1 false 0 _ _ [false]
     ⟨⟨30, 5, 6, 2004⟩, [.i32V 7, .strV [97], .i32V 8, .i32V 9, .docV [], .docV []]⟩ []
     ⟨⟨16, 1, 5, 1⟩, [.i32V 0, .i64V 0, .i32V 0, .i32V 0, .docArrV []]⟩ []
     (by decide) (by decide),
   c10_reply_always_forwarded.2 false 1 (headerBytes ⟨24, 0, 0, 2004⟩) [] [true] [false]⟩

end MongoProxy
